import Mathlib

/-!
# chessr — verification of the spec's claims against the source

Shallow embedding of the chessr chess rules engine.  The repository is a
collection of historical snapshots of the same engine; the embedding below
follows, file by file, the snapshots the claims cite:

* `src/core/color.rs`, `src/core/piece.rs`, `src/core/castle.rs`,
  `src/core/square_coords.rs`, `src/constants.rs` — basic model types;
* `src/core/board.rs` — the `Board` aggregate, `square_attackers`,
  `apply_move`, `future_check`, the `make_*_move` entry points and the
  derived queries (`check`, `fifty_move_rule`, …);
* `src/core/movegen.rs` — `generate_legal_moves`, `pawn_legal_moves`,
  `piece_legal_moves`, `castle_legal_moves`;
* `src/core/move.rs` — the `Move` struct and the UCI/SAN parsers;
* `src/board.rs`, `src/move.rs` (historical variant) — the old `make_move`
  with its draw side effect, in namespace `Old`;
* `src/fen.rs` (bitboard variant) — `parse_fen`, in namespace `BB`.

Rust `usize` coordinates that are mixed with `i8` offsets and then
bounds-checked with `(0..=7).contains` are modelled as `Int` pairs: the Rust
cast of a negative `i8` to `usize` produces a value far outside `0..=7`, so
the bounds check fails there exactly as `0 ≤ x ∧ x ≤ 7` fails on the
negative `Int`.
-/

namespace Chessr

/-- `Color` from `src/core/color.rs`. -/
inductive Color where
  | white
  | black
deriving DecidableEq, Repr

/-- `Color::invert` from `src/core/color.rs`. -/
def Color.invert : Color → Color
  | .white => .black
  | .black => .white

/-- `Color::to_fen_char` from `src/core/color.rs`. -/
def Color.toFenChar : Color → Char
  | .white => 'w'
  | .black => 'b'

/-- `Piece` from `src/core/piece.rs`: a piece kind carrying its color. -/
inductive Piece where
  | pawn (c : Color)
  | knight (c : Color)
  | bishop (c : Color)
  | rook (c : Color)
  | queen (c : Color)
  | king (c : Color)
deriving DecidableEq, Repr

/-- `Piece::color` from `src/core/piece.rs`. -/
def Piece.color : Piece → Color
  | .pawn c => c
  | .knight c => c
  | .bishop c => c
  | .rook c => c
  | .queen c => c
  | .king c => c

/-- `Piece::to_fen_char` from `src/core/piece.rs`. -/
def Piece.toFenChar : Piece → Char
  | .pawn .black => 'p'
  | .knight .black => 'n'
  | .bishop .black => 'b'
  | .rook .black => 'r'
  | .queen .black => 'q'
  | .king .black => 'k'
  | .pawn .white => 'P'
  | .knight .white => 'N'
  | .bishop .white => 'B'
  | .rook .white => 'R'
  | .queen .white => 'Q'
  | .king .white => 'K'

/-- `Piece::from_fen_char` from `src/core/piece.rs`. -/
def Piece.fromFenChar : Char → Option Piece
  | 'p' => some (.pawn .black)
  | 'n' => some (.knight .black)
  | 'b' => some (.bishop .black)
  | 'r' => some (.rook .black)
  | 'q' => some (.queen .black)
  | 'k' => some (.king .black)
  | 'P' => some (.pawn .white)
  | 'N' => some (.knight .white)
  | 'B' => some (.bishop .white)
  | 'R' => some (.rook .white)
  | 'Q' => some (.queen .white)
  | 'K' => some (.king .white)
  | _ => none

/-- `Piece::from_san_char` from `src/core/piece.rs`. -/
def Piece.fromSanChar (c : Char) (color : Color) : Option Piece :=
  match c with
  | 'P' => some (.pawn color)
  | 'N' => some (.knight color)
  | 'B' => some (.bishop color)
  | 'R' => some (.rook color)
  | 'Q' => some (.queen color)
  | 'K' => some (.king color)
  | _ => none

/-- `Piece::from_uci_char` from `src/core/piece.rs`. -/
def Piece.fromUciChar (c : Char) (color : Color) : Option Piece :=
  match c with
  | 'p' => some (.pawn color)
  | 'n' => some (.knight color)
  | 'b' => some (.bishop color)
  | 'r' => some (.rook color)
  | 'q' => some (.queen color)
  | 'k' => some (.king color)
  | _ => none

/-- A board coordinate pair: row then column, `SquareCoords` from
`src/core/square_coords.rs` (see the header note on `usize` vs `Int`). -/
abbrev SquareCoords := Int × Int

/-- Componentwise addition of a coordinate and a direction
(`impl Add<(i8, i8)> for SquareCoords`). -/
def addDir (s d : SquareCoords) : SquareCoords := (s.1 + d.1, s.2 + d.2)

/-- `SquareCoords::inside_board` / the `(0..=7).contains` checks. -/
def insideBoard (s : SquareCoords) : Bool :=
  0 ≤ s.1 && s.1 ≤ 7 && 0 ≤ s.2 && s.2 ≤ 7

/-- `SquareCoords::from_san_str` from `src/core/square_coords.rs`: reads the
first two characters, ignores the rest. -/
def SquareCoords.fromSanStr (l : List Char) : Option SquareCoords :=
  match l with
  | c :: r :: _ =>
    if 'a' ≤ c && c ≤ 'h' && '1' ≤ r && r ≤ '8' then
      some ((7 : Int) - ((r.toNat : Int) - 49), (c.toNat : Int) - 97)
    else none
  | _ => none

/-- The `Display` impl for `SquareCoords` from `src/core/square_coords.rs`:
column as a letter, rank `8 - row`. -/
def squareCoordsChars (s : SquareCoords) : List Char :=
  [Char.ofNat (97 + s.2.toNat), Char.ofNat (48 + (8 - s.1.toNat))]

/-- `CastleKind` from `src/core/castle.rs`. -/
inductive CastleKind where
  | kingside
  | queenside
deriving DecidableEq, Repr

/-- `CastleKind::from_san_str` from `src/core/castle.rs`. -/
def CastleKind.fromSanStr (l : List Char) : Option CastleKind :=
  if l = "O-O".data ∨ l = "0-0".data ∨ l = "o-o".data then some .kingside
  else if l = "O-O-O".data ∨ l = "0-0-0".data ∨ l = "o-o-o".data then some .queenside
  else none

/-- `CastleKind::from_uci_str` from `src/core/castle.rs`. -/
def CastleKind.fromUciStr (l : List Char) : Option CastleKind :=
  if l = "e1g1".data ∨ l = "e8g8".data ∨ l = "e1-g1".data ∨ l = "e8-g8".data then
    some .kingside
  else if l = "e1c1".data ∨ l = "e8c8".data ∨ l = "e1-c1".data ∨ l = "e8-c8".data then
    some .queenside
  else none

/-- `CastleRights` from `src/core/castle.rs`. -/
inductive CastleRights where
  | whiteKingside
  | whiteQueenside
  | blackKingside
  | blackQueenside
deriving DecidableEq, Repr

/-! Direction tables from `src/constants.rs`. -/

def PAWN_CAPTURE_DIRECTIONS : List SquareCoords := [(1, 1), (1, -1)]

def PAWN_DIRECTIONS : List SquareCoords := [(1, 0), (2, 0), (1, 1), (1, -1)]

def ROOK_DIRECTIONS : List SquareCoords := [(1, 0), (0, 1), (-1, 0), (0, -1)]

def BISHOP_DIRECTIONS : List SquareCoords := [(1, 1), (-1, 1), (-1, -1), (1, -1)]

def KNIGHT_DIRECTIONS : List SquareCoords :=
  [(2, 1), (2, -1), (-2, 1), (-2, -1), (1, 2), (1, -2), (-1, 2), (-1, -2)]

def KING_DIRECTIONS : List SquareCoords :=
  [(1, 0), (1, 1), (1, -1), (0, 1), (-1, 1), (-1, 0), (-1, -1), (0, -1)]

def QUEEN_DIRECTIONS : List SquareCoords :=
  [(1, 0), (1, 1), (0, 1), (-1, 1), (-1, 0), (-1, -1), (0, -1), (1, -1)]

/-- `Piece::directions` from `src/core/piece.rs`: a white pawn negates both
components of each pawn direction. -/
def Piece.directions : Piece → List SquareCoords
  | .pawn .black => PAWN_DIRECTIONS
  | .pawn .white => PAWN_DIRECTIONS.map (fun d => (-d.1, -d.2))
  | .knight _ => KNIGHT_DIRECTIONS
  | .bishop _ => BISHOP_DIRECTIONS
  | .rook _ => ROOK_DIRECTIONS
  | .queen _ => QUEEN_DIRECTIONS
  | .king _ => KING_DIRECTIONS

/-- The sliding kinds: in every ray walk of the source the `match` keeps
looping for queen/rook/bishop and breaks for knight/king/pawn. -/
def Piece.isSlider : Piece → Bool
  | .queen _ => true
  | .rook _ => true
  | .bishop _ => true
  | _ => false

/-- `Move` from `src/core/move.rs`. -/
structure Move where
  piece : Option Piece
  color : Color
  src_square : Option SquareCoords
  dst_square : Option SquareCoords
  castle : Option CastleKind
  promotion : Option Piece
  capture : Bool
deriving DecidableEq, Repr

/-- `Board` from `src/core/board.rs`: an 8×8 grid of optional pieces plus the
game state.  `squares` is the list of 8 rows, row 0 being rank 8. -/
structure Board where
  squares : List (List (Option Piece))
  active_color : Color
  castle_rights : List CastleRights
  en_passant_target : Option SquareCoords
  halfmove_clock : Nat
  fullmove_number : Nat
  position_history : List String
deriving DecidableEq, Repr

/-- `Board::get_piece` from `src/core/board.rs`.  The source indexes the
array directly and would panic out of bounds; every caller range-checks
first (§7 of the spec), so the `getD` defaults are never reached there. -/
def Board.getPiece (b : Board) (s : SquareCoords) : Option Piece :=
  (b.squares.getD s.1.toNat []).getD s.2.toNat none

/-- `Board::set_piece` from `src/core/board.rs`. -/
def Board.setPiece (b : Board) (s : SquareCoords) (p : Option Piece) : Board :=
  { b with squares := b.squares.set s.1.toNat ((b.squares.getD s.1.toNat []).set s.2.toNat p) }

/-- The `while` loop body of `Board::square_attackers`
(`src/core/board.rs:517-536`): walk from the examined square outward; a
piece different from the probed one blocks; a matching piece is recorded;
sliders keep walking, knight/king/pawn stop after one square.  The fuel
(8 at entry) strictly exceeds the number of in-bounds squares any ray can
visit, so it never runs out before the bounds check stops the walk. -/
def attackScan (b : Board) (p : Piece) (d : SquareCoords) :
    SquareCoords → Nat → List (Piece × SquareCoords)
  | _, 0 => []
  | s, fuel + 1 =>
    if insideBoard s then
      match b.getPiece s with
      | some q =>
        if q ≠ p then []
        else (p, s) :: (if p.isSlider then attackScan b p d (addDir s d) fuel else [])
      | none => if p.isSlider then attackScan b p d (addDir s d) fuel else []
    else []

/-- `Board::square_attackers` from `src/core/board.rs:481-541`: the pieces of
the color opposite to the active color that attack `src`, found by walking
each piece kind's directions outward from `src` (inverted row direction for
pawns, and pawn forward directions skipped). -/
def Board.squareAttackers (b : Board) (src : SquareCoords) : List (Piece × SquareCoords) :=
  let color := b.active_color.invert
  let pieces := [Piece.pawn color, Piece.knight color, Piece.bishop color,
    Piece.rook color, Piece.queen color, Piece.king color]
  pieces.flatMap fun p =>
    p.directions.flatMap fun d =>
      if p = Piece.pawn color && d.2 == 0 then []
      else
        let start : SquareCoords :=
          match p with
          | .pawn _ => (src.1 - d.1, src.2 + d.2)
          | _ => (src.1 + d.1, src.2 + d.2)
        attackScan b p d start 8

/-- `Board::king_square` from `src/core/board.rs`: the first square (in
row-major order) holding the active color's king.  The source panics when no
king is present; that state is unreachable (§3, §7), and the embedding
returns `(0, 0)` there. -/
def Board.kingSquare (b : Board) : SquareCoords :=
  match (List.range 8).findSome? (fun r =>
      (List.range 8).findSome? (fun c =>
        if b.getPiece ((r : Int), (c : Int)) = some (Piece.king b.active_color) then
          some (((r : Int), (c : Int)) : SquareCoords)
        else none)) with
  | some s => s
  | none => (0, 0)

/-- `Board::checkers` from `src/core/board.rs`. -/
def Board.checkers (b : Board) : List (Piece × SquareCoords) :=
  b.squareAttackers b.kingSquare

/-- `Board::check` from `src/core/board.rs`. -/
def Board.check (b : Board) : Bool :=
  !b.checkers.isEmpty

/-- `Board::fifty_move_rule` from `src/core/board.rs:168-170`: the source
tests `halfmove_clock >= 50`. -/
def Board.fiftyMoveRule (b : Board) : Bool :=
  b.halfmove_clock ≥ 50

/-! ### FEN serialization of the core board

`Board::fen` calls `fen::board_to_fen`, which is not under `src/` (the
`src/fen.rs` present is the bitboard snapshot's parser).  The functions below
are therefore modelled from the spec. -/

/-- Decimal digit character. -/
def digitChar (n : Nat) : Char := Char.ofNat (48 + n)

/-- Decimal rendering of a `Nat`, most significant digit first. -/
def natChars (n : Nat) : List Char :=
  if _h : n < 10 then [digitChar n]
  else natChars (n / 10) ++ [digitChar (n % 10)]
decreasing_by exact Nat.div_lt_self (by omega) (by omega)

/-- Run-length encoding of one rank of squares, empty squares counted in
`run` and flushed as a single digit (FEN §6). -/
def encodeRankAux : Nat → List (Option Piece) → List Char
  | run, [] => if run = 0 then [] else [digitChar run]
  | run, none :: rest => encodeRankAux (run + 1) rest
  | run, some p :: rest =>
    (if run = 0 then [] else [digitChar run]) ++ p.toFenChar :: encodeRankAux 0 rest

/-- FEN encoding of one rank. -/
def encodeRank (row : List (Option Piece)) : List Char := encodeRankAux 0 row

/-- `List.intercalate` on a single separator character. -/
def intercalateChar (c : Char) : List (List Char) → List Char
  | [] => []
  | [x] => x
  | x :: xs => x ++ c :: intercalateChar c xs

/-- The castling-availability FEN field in the canonical `KQkq` order
(§6 of the spec), `-` when no right remains. -/
def castleFieldCore (rights : List CastleRights) : List Char :=
  let s := (if rights.contains .whiteKingside then ['K'] else []) ++
    (if rights.contains .whiteQueenside then ['Q'] else []) ++
    (if rights.contains .blackKingside then ['k'] else []) ++
    (if rights.contains .blackQueenside then ['q'] else [])
  if s.isEmpty then ['-'] else s

/-- The en-passant FEN field: `-` or the algebraic square name. -/
def epFieldCore : Option SquareCoords → List Char
  | none => ['-']
  | some s => squareCoordsChars s

/-- Modelled from the spec: `fen::board_to_fen` (called by `Board::fen`) is
not under `src/`; §6 fixes the canonical six-field FEN line it must
produce — piece placement rank by rank with digit runs, active color,
castling subset in `KQkq` order, en-passant square or `-`, halfmove clock
and fullmove number, space-separated. -/
def boardFenChars (b : Board) : List Char :=
  intercalateChar ' '
    [intercalateChar '/' (b.squares.map encodeRank),
     [b.active_color.toFenChar],
     castleFieldCore b.castle_rights,
     epFieldCore b.en_passant_target,
     natChars b.halfmove_clock,
     natChars b.fullmove_number]

/-- `Board::fen` as a `String` (see `boardFenChars`). -/
def boardToFen (b : Board) : String := String.mk (boardFenChars b)

/-- `Board::castle_kingside` from `src/core/board.rs:545-560`. -/
def Board.castleKingside (b : Board) : Board :=
  let row : Int := match b.active_color with | .white => 7 | .black => 0
  ((((b.setPiece (row, 4) none).setPiece (row, 7) none).setPiece
    (row, 6) (some (Piece.king b.active_color))).setPiece
    (row, 5) (some (Piece.rook b.active_color)))

/-- `Board::castle_queenside` from `src/core/board.rs:564-579`. -/
def Board.castleQueenside (b : Board) : Board :=
  let row : Int := match b.active_color with | .white => 7 | .black => 0
  ((((b.setPiece (row, 4) none).setPiece (row, 0) none).setPiece
    (row, 2) (some (Piece.king b.active_color))).setPiece
    (row, 3) (some (Piece.rook b.active_color)))

/-- `Board::update_en_passant_target_square` from
`src/core/board.rs:582-612`: a target is produced only for a double pawn
step of a pawn of the *current* active color with an enemy pawn positioned
to capture it. -/
def Board.updateEnPassantTargetSquare (b : Board) (m : Move) : Option SquareCoords :=
  match m.src_square, m.dst_square with
  | some src, some dst =>
    if m.piece ≠ some (Piece.pawn b.active_color) ∨ (dst.1 - src.1).natAbs ≠ 2 then none
    else
      let ep : SquareCoords :=
        match b.active_color with
        | .black => (dst.1 - 1, dst.2)
        | .white => (dst.1 + 1, dst.2)
      if PAWN_CAPTURE_DIRECTIONS.any (fun d =>
          let s := addDir ep d
          insideBoard s && b.getPiece s == some (Piece.pawn b.active_color.invert)) then
        some ep
      else none
  | _, _ => none

/-- The retained-rights computation of `Board::update_castle_rights` from
`src/core/board.rs:628-686`: a chain of `retain` calls on the rights vector,
each only removing rights. -/
def updateCastleRightsList (active : Color) (rights : List CastleRights) (m : Move) :
    List CastleRights :=
  let r := if m.castle.isSome then
      match active with
      | .white => rights.filter fun x =>
          x ≠ CastleRights.whiteKingside && x ≠ CastleRights.whiteQueenside
      | .black => rights.filter fun x =>
          x ≠ CastleRights.blackKingside && x ≠ CastleRights.blackQueenside
    else rights
  let r := if m.piece == some (Piece.king Color.white) then
      r.filter fun x => x ≠ CastleRights.whiteKingside && x ≠ CastleRights.whiteQueenside
    else r
  let r := if m.piece == some (Piece.king Color.black) then
      r.filter fun x => x ≠ CastleRights.blackKingside && x ≠ CastleRights.blackQueenside
    else r
  let r := if m.src_square == some ((7, 7) : SquareCoords) ∨
      m.dst_square == some ((7, 7) : SquareCoords) then
      r.filter fun x => x ≠ CastleRights.whiteKingside
    else r
  let r := if m.src_square == some ((7, 0) : SquareCoords) ∨
      m.dst_square == some ((7, 0) : SquareCoords) then
      r.filter fun x => x ≠ CastleRights.whiteQueenside
    else r
  let r := if m.src_square == some ((0, 7) : SquareCoords) ∨
      m.dst_square == some ((0, 7) : SquareCoords) then
      r.filter fun x => x ≠ CastleRights.blackKingside
    else r
  let r := if m.src_square == some ((0, 0) : SquareCoords) ∨
      m.dst_square == some ((0, 0) : SquareCoords) then
      r.filter fun x => x ≠ CastleRights.blackQueenside
    else r
  r

/-- `Board::update_castle_rights`: the rights vector is the only field the
source mutates. -/
def Board.updateCastleRights (b : Board) (m : Move) : Board :=
  { b with castle_rights := updateCastleRightsList b.active_color b.castle_rights m }

/-- The castling block of `Board::apply_move` (`src/core/board.rs:421-426`). -/
def applyCastleStage (b : Board) (m : Move) : Board :=
  match m.castle with
  | some .kingside => b.castleKingside
  | some .queenside => b.castleQueenside
  | none => b

/-- The normal-move/en-passant block of `Board::apply_move`
(`src/core/board.rs:429-458`): en-passant removal, halfmove clock,
promotion or piece placement, source clearing. -/
def applyMoveStage (b : Board) (m : Move) : Board :=
  match m.src_square, m.dst_square with
  | some src, some dst =>
    let ba := if b.en_passant_target == some dst then
        match b.en_passant_target with
        | some ep =>
          let cap : SquareCoords := match b.active_color with
            | .white => (ep.1 + 1, ep.2)
            | .black => (ep.1 - 1, ep.2)
          b.setPiece cap none
        | none => b
      else b
    let bb := if m.piece == some (Piece.pawn ba.active_color) || m.capture then
        { ba with halfmove_clock := 0 }
      else { ba with halfmove_clock := ba.halfmove_clock + 1 }
    let bc := match m.promotion with
      | some pp => bb.setPiece dst (some pp)
      | none => bb.setPiece dst m.piece
    bc.setPiece src none
  | _, _ => b

/-- `Board::apply_move` from `src/core/board.rs:419-468`, step for step:
castling relocation; en-passant removal, halfmove clock, promotion/piece
placement and source clearing; castle-rights update; history push (before
any of the remaining updates); color flip; en-passant target recomputation
(after the flip — as in the source); fullmove increment when the new active
color is white. -/
def Board.applyMove (b : Board) (m : Move) : Board :=
  let b2 := applyMoveStage (applyCastleStage b m) m
  let b3 := b2.updateCastleRights m
  let b4 := { b3 with position_history := b3.position_history ++ [boardToFen b3] }
  let b5 := { b4 with active_color := b4.active_color.invert }
  let b6 := { b5 with en_passant_target := b5.updateEnPassantTargetSquare m }
  let inc : Nat := match b6.active_color with | .white => 1 | .black => 0
  { b6 with fullmove_number := b6.fullmove_number + inc }

/-- `Board::future_check` from `src/core/board.rs:473-478`. -/
def Board.futureCheck (b : Board) (m : Move) : Bool :=
  let nb := b.applyMove m
  let nb := { nb with active_color := nb.active_color.invert }
  nb.check

/-! ### Legal move generation, `src/core/movegen.rs`

The movegen snapshot predates the `piece`/`color`/`capture` fields of
`Move` (it builds moves from `src_square`/`dst_square`/`promotion`/`castle`
only), while `Board::make_uci_move`/`make_san_move` test membership of the
parsed seven-field `Move` in `legal_moves()`.  The missing three fields of
each generated move are modelled from the spec (§3: "a parsed candidate is
legal iff it structurally equals some element of the legal-move
enumeration"), matching the values `Move::from_uci`/`from_san` put there:
the moved piece, the active color, and a capture flag set when the
destination is occupied (or, for a pawn, is the en-passant target). -/

/-- The ray walk of `piece_legal_moves` (`src/core/movegen.rs:44-84`): stop
at own pieces, capture enemy pieces, keep sliding over empty squares for
sliders; each candidate passes the `future_check` filter.  Fuel as in
`attackScan`. -/
def pieceRayMoves (b : Board) (piece : Piece) (src : SquareCoords) (d : SquareCoords) :
    SquareCoords → Nat → List Move
  | _, 0 => []
  | dst, fuel + 1 =>
    if insideBoard dst then
      let q := b.getPiece dst
      if q.any (fun p => p.color = b.active_color) then []
      else
        let m : Move :=
          { piece := some piece, color := b.active_color,
            src_square := some src, dst_square := some dst, castle := none,
            promotion := none, capture := q.isSome }
        if q.isSome then
          if b.futureCheck m then [] else [m]
        else
          (if b.futureCheck m then [] else [m]) ++
            (if piece.isSlider then pieceRayMoves b piece src d (addDir dst d) fuel else [])
    else []

/-- The promotion loop of `pawn_legal_moves` (`src/core/movegen.rs:146-165`):
the source `break`s out of the whole loop at the first promotion move that
fails `future_check`. -/
def pawnPromotionMoves (b : Board) (src dst : SquareCoords) (cap : Bool) :
    List Piece → List Move
  | [] => []
  | p :: rest =>
    let m : Move :=
      { piece := some (Piece.pawn b.active_color), color := b.active_color,
        src_square := some src, dst_square := some dst, castle := none,
        promotion := some p, capture := cap }
    if b.futureCheck m then [] else m :: pawnPromotionMoves b src dst cap rest

/-- `pawn_legal_moves` from `src/core/movegen.rs:92-184`. -/
def pawnLegalMoves (src : SquareCoords) (b : Board) : List Move :=
  let piece := Piece.pawn b.active_color
  piece.directions.flatMap fun d =>
    let dst := addDir src d
    if !insideBoard dst then []
    else
      let dstPiece := b.getPiece dst
      let invalidForwardMove := d.2 == 0 && dstPiece.isSome
      let invalidTwoSquareMoveRow := src.1 ≠ 6 && src.1 ≠ 1
      let pieceBlockingTwoSquareMove :=
        match b.active_color with
        | .black => (b.getPiece (dst.1 - 1, dst.2)).isSome
        | .white => (b.getPiece (dst.1 + 1, dst.2)).isSome
      let invalidTwoSquareMove := (d.1 == 2 || d.1 == -2) &&
        (invalidTwoSquareMoveRow || pieceBlockingTwoSquareMove || dstPiece.isSome)
      let invalidEnPassant :=
        (match b.en_passant_target with
         | some s => decide (s ≠ dst)
         | none => false) || b.en_passant_target.isNone
      let invalidCapture := (d.2 ≠ 0 && (dstPiece.isNone && invalidEnPassant)) ||
        dstPiece.any (fun p => p.color = b.active_color)
      if invalidForwardMove || invalidTwoSquareMove || invalidCapture then []
      else
        let cap := dstPiece.isSome || b.en_passant_target == some dst
        if (dst.1 == 0 && b.active_color = Color.white) ||
            (dst.1 == 7 && b.active_color = Color.black) then
          pawnPromotionMoves b src dst cap
            [Piece.queen b.active_color, Piece.rook b.active_color,
             Piece.bishop b.active_color, Piece.knight b.active_color]
        else
          let m : Move :=
            { piece := some piece, color := b.active_color,
              src_square := some src, dst_square := some dst, castle := none,
              promotion := none, capture := cap }
          if b.futureCheck m then [] else [m]

/-- `piece_legal_moves` from `src/core/movegen.rs:30-88`: pawns are handled
by `pawnLegalMoves`, all other pieces by the ray walk over their
directions. -/
def pieceLegalMoves (piece : Piece) (src : SquareCoords) (b : Board) : List Move :=
  match piece with
  | .pawn _ => pawnLegalMoves src b
  | _ => piece.directions.flatMap fun d => pieceRayMoves b piece src d (addDir src d) 8

/-- `castle_legal_moves` from `src/core/movegen.rs:188-244`: per side, the
right must be held, the squares between king and rook must be empty, and the
two squares the king crosses/lands on must be unattacked — the king's own
square is *not* tested. -/
def castleLegalMoves (b : Board) : List Move :=
  let kinds : List CastleKind :=
    match b.active_color with
    | .white =>
      (if b.castle_rights.contains CastleRights.whiteKingside &&
          (b.getPiece (7, 5)).isNone && (b.getPiece (7, 6)).isNone &&
          (b.squareAttackers (7, 5)).isEmpty && (b.squareAttackers (7, 6)).isEmpty then
        [CastleKind.kingside] else []) ++
      (if b.castle_rights.contains CastleRights.whiteQueenside &&
          (b.getPiece (7, 1)).isNone && (b.getPiece (7, 2)).isNone &&
          (b.getPiece (7, 3)).isNone &&
          (b.squareAttackers (7, 2)).isEmpty && (b.squareAttackers (7, 3)).isEmpty then
        [CastleKind.queenside] else [])
    | .black =>
      (if b.castle_rights.contains CastleRights.blackKingside &&
          (b.getPiece (0, 5)).isNone && (b.getPiece (0, 6)).isNone &&
          (b.squareAttackers (0, 5)).isEmpty && (b.squareAttackers (0, 6)).isEmpty then
        [CastleKind.kingside] else []) ++
      (if b.castle_rights.contains CastleRights.blackQueenside &&
          (b.getPiece (0, 1)).isNone && (b.getPiece (0, 2)).isNone &&
          (b.getPiece (0, 3)).isNone &&
          (b.squareAttackers (0, 2)).isEmpty && (b.squareAttackers (0, 3)).isEmpty then
        [CastleKind.queenside] else [])
  kinds.map fun k =>
    { piece := none, color := b.active_color, src_square := none, dst_square := none,
      castle := some k, promotion := none, capture := false }

/-- `generate_legal_moves` from `src/core/movegen.rs:5-26`: per-square piece
moves of the active color, then the castle moves. -/
def generateLegalMoves (b : Board) : List Move :=
  ((List.range 8).flatMap fun r =>
    (List.range 8).flatMap fun c =>
      match b.getPiece ((r : Int), (c : Int)) with
      | some p =>
        if p.color = b.active_color then pieceLegalMoves p ((r : Int), (c : Int)) b else []
      | none => []) ++ castleLegalMoves b

/-- `Board::legal_moves` from `src/core/board.rs:399-401`. -/
def Board.legalMoves (b : Board) : List Move :=
  generateLegalMoves b

/-- `Board::checkmate` from `src/core/board.rs:139-141`. -/
def Board.checkmate (b : Board) : Bool :=
  b.check && b.legalMoves.isEmpty

/-- `Board::stalemate` from `src/core/board.rs:153-155`. -/
def Board.stalemate (b : Board) : Bool :=
  !b.check && b.legalMoves.isEmpty

/-! ### Notation parsing, `src/core/move.rs`

The regular-expression shape tests are embedded as pattern matches over the
character list; each matcher is the direct transcription of its anchored
regex from `src/constants.rs`. -/

/-- `[a-h]`. -/
def isFileChar (c : Char) : Bool := 'a' ≤ c && c ≤ 'h'

/-- `[1-8]`. -/
def isRankChar (c : Char) : Bool := '1' ≤ c && c ≤ '8'

/-- `[2-7]`. -/
def isRank27Char (c : Char) : Bool := '2' ≤ c && c ≤ '7'

/-- `[KQBNR]`. -/
def isPieceChar (c : Char) : Bool :=
  c == 'K' || c == 'Q' || c == 'B' || c == 'N' || c == 'R'

/-- `[QBNR]`. -/
def isPromoChar (c : Char) : Bool :=
  c == 'Q' || c == 'B' || c == 'N' || c == 'R'

/-- `(\+|#)` — the optional trailing decoration of every SAN regex. -/
def isDecoChar (c : Char) : Bool := c == '+' || c == '#'

/-- Strip the single optional trailing `+`/`#` before matching a SAN core
shape (none of the core shapes ends in a decoration character, so this is
exactly the anchored `core(\+|#)?` regex). -/
def stripDeco (l : List Char) : List Char :=
  match l.reverse with
  | c :: rest => if isDecoChar c then rest.reverse else l
  | [] => l

/-- `UCI_MOVE_REGEX`: `^([a-h])([1-8])([a-h])([1-8])([qrbn]?)$`. -/
def uciMoveMatch (l : List Char) : Bool :=
  match l with
  | [a, b, c, d] => isFileChar a && isRankChar b && isFileChar c && isRankChar d
  | [a, b, c, d, p] => isFileChar a && isRankChar b && isFileChar c && isRankChar d &&
      (p == 'q' || p == 'r' || p == 'b' || p == 'n')
  | _ => false

/-- `UCI_MOVE_DASH_REGEX`: `^([a-h])([1-8])-([a-h])([1-8])([qrbn]?)$`. -/
def uciMoveDashMatch (l : List Char) : Bool :=
  match l with
  | [a, b, '-', c, d] => isFileChar a && isRankChar b && isFileChar c && isRankChar d
  | [a, b, '-', c, d, p] => isFileChar a && isRankChar b && isFileChar c && isRankChar d &&
      (p == 'q' || p == 'r' || p == 'b' || p == 'n')
  | _ => false

/-- `Move::from_uci` from `src/core/move.rs:55-97`. -/
def Move.fromUciChars (l : List Char) (b : Board) : Option Move :=
  let dashUci := uciMoveDashMatch l
  if !uciMoveMatch l && !dashUci then none
  else
    let srcStr := l.take 2
    let dstStr := if dashUci then (l.drop 3).take 2 else (l.drop 2).take 2
    let promoChar := if dashUci then l.get? 5 else l.get? 4
    match SquareCoords.fromSanStr srcStr with
    | none => none
    | some src =>
      match SquareCoords.fromSanStr dstStr with
      | none => none
      | some dst =>
        let castle := CastleKind.fromUciStr l
        let promo? : Option (Option Piece) :=
          match promoChar with
          | some c =>
            match Piece.fromUciChar c b.active_color with
            | some p => some (some p)
            | none => none
          | none => some none
        match promo? with
        | none => none
        | some promotion =>
          match castle with
          | some castleType =>
            some
              { piece := none, color := b.active_color, src_square := none,
                dst_square := none, castle := some castleType, promotion := none,
                capture := false }
          | none =>
            some
              { piece := b.getPiece src, color := b.active_color,
                src_square := some src, dst_square := some dst, castle := none,
                promotion := promotion, capture := (b.getPiece dst).isSome }

/-- `Move::from_uci` on a `String`. -/
def Move.fromUci (s : String) (b : Board) : Option Move :=
  Move.fromUciChars s.data b

/-- The candidate scan of `algebraic_piece_move`
(`src/core/move.rs:336-402`): from the destination outward along one
direction; a non-matching piece blocks; a square failing the disambiguation
constraint is stepped over (whatever it holds); an empty square continues
the walk for sliders only; a matching piece at a conforming square yields
the candidate (kept unless `future_check`) and ends the walk. -/
def sanCandidateScan (b : Board) (piece : Piece) (dst : SquareCoords)
    (dRow dCol : Option Int) (d : SquareCoords) : SquareCoords → Nat → List Move
  | _, 0 => []
  | pos, fuel + 1 =>
    if insideBoard pos then
      let q := b.getPiece pos
      if q.any (fun p => p ≠ piece) then []
      else if dRow.any (fun row => row ≠ pos.1) then
        sanCandidateScan b piece dst dRow dCol d (addDir pos d) fuel
      else if dCol.any (fun col => col ≠ pos.2) then
        sanCandidateScan b piece dst dRow dCol d (addDir pos d) fuel
      else
        match q with
        | none =>
          if piece.isSlider then
            sanCandidateScan b piece dst dRow dCol d (addDir pos d) fuel
          else []
        | some _ =>
          let m : Move :=
            { piece := some piece, color := b.active_color,
              src_square := some pos, dst_square := some dst, castle := none,
              promotion := none, capture := (b.getPiece dst).isSome }
          if b.futureCheck m then [] else [m]
    else []

/-- `algebraic_pawn_move` from `src/core/move.rs:415-464`: the first pawn
direction (subtracted from the destination) whose source square holds an
active-color pawn and meets the column disambiguation yields the move. -/
def algebraicPawnMove (dst : SquareCoords) (b : Board) (dCol : Option Int) : Option Move :=
  let piece := Piece.pawn b.active_color
  let rec go : List SquareCoords → Option Move
    | [] => none
    | d :: rest =>
      let src : SquareCoords := (dst.1 - d.1, dst.2 - d.2)
      if !insideBoard src then go rest
      else
        let srcPiece := b.getPiece src
        if srcPiece.any (fun p => p ≠ piece) || srcPiece.isNone then go rest
        else if dCol.any (fun col => col ≠ src.2) then go rest
        else
          let cap := (b.getPiece dst).isSome || b.en_passant_target == some dst
          some
            { piece := some piece, color := b.active_color,
              src_square := some src, dst_square := some dst, castle := none,
              promotion := none, capture := cap }
  go piece.directions

/-- `algebraic_piece_move` from `src/core/move.rs:323-412`: pawns go through
`algebraicPawnMove`; otherwise the scan runs over every direction of the
piece and the move is returned only when exactly one candidate survives. -/
def algebraicPieceMove (piece : Piece) (dst : SquareCoords)
    (dRow dCol : Option Int) (b : Board) : Option Move :=
  match piece with
  | .pawn _ => algebraicPawnMove dst b dCol
  | _ =>
    let valid := piece.directions.flatMap fun d =>
      sanCandidateScan b piece dst dRow dCol d (addDir dst d) 8
    match valid with
    | [m] => some m
    | _ => none

/-- `CASTLE_REGEX` core shapes. -/
def castleMatch (l : List Char) : Bool :=
  let s := stripDeco l
  s == "O-O".data || s == "O-O-O".data || s == "0-0".data || s == "0-0-0".data ||
    s == "o-o".data || s == "o-o-o".data

/-- `PAWN_MOVE_REGEX`: `^([a-h])([2-7])(\+|#)?$`. -/
def pawnMoveMatch (l : List Char) : Bool :=
  match stripDeco l with
  | [f, r] => isFileChar f && isRank27Char r
  | _ => false

/-- `PIECE_MOVE_REGEX`: `^([KQBNR])([a-h])([1-8])(\+|#)?$`. -/
def pieceMoveMatch (l : List Char) : Bool :=
  match stripDeco l with
  | [p, f, r] => isPieceChar p && isFileChar f && isRankChar r
  | _ => false

/-- `PIECE_MOVE_ROW_DISAMBIGUATION_REGEX`: `^([KQBNR])([1-8])([a-h])([1-8])(\+|#)?$`. -/
def pieceMoveRowMatch (l : List Char) : Bool :=
  match stripDeco l with
  | [p, r1, f, r] => isPieceChar p && isRankChar r1 && isFileChar f && isRankChar r
  | _ => false

/-- `PIECE_MOVE_COLUMN_DISAMBIGUATION_REGEX`: `^([KQBNR])([a-h])([a-h])([1-8])(\+|#)?$`. -/
def pieceMoveColMatch (l : List Char) : Bool :=
  match stripDeco l with
  | [p, f1, f, r] => isPieceChar p && isFileChar f1 && isFileChar f && isRankChar r
  | _ => false

/-- `PIECE_MOVE_ROW_AND_COLUMN_DISAMBIGUATION_REGEX`:
`^([KQBNR])([a-h])([1-8])([a-h])([1-8])(\+|#)?$`. -/
def pieceMoveRowColMatch (l : List Char) : Bool :=
  match stripDeco l with
  | [p, f1, r1, f, r] =>
    isPieceChar p && isFileChar f1 && isRankChar r1 && isFileChar f && isRankChar r
  | _ => false

/-- `PAWN_CAPTURE_REGEX`: `^([a-h])x([a-h])([2-7])(\+|#)?$`. -/
def pawnCaptureMatch (l : List Char) : Bool :=
  match stripDeco l with
  | [f1, 'x', f, r] => isFileChar f1 && isFileChar f && isRank27Char r
  | _ => false

/-- `PIECE_CAPTURE_REGEX`: `^([KQBNR])x([a-h])([1-8])(\+|#)?$`. -/
def pieceCaptureMatch (l : List Char) : Bool :=
  match stripDeco l with
  | [p, 'x', f, r] => isPieceChar p && isFileChar f && isRankChar r
  | _ => false

/-- `PIECE_CAPTURE_ROW_DISAMBIGUATION_REGEX`: `^([KQBNR])([1-8])x([a-h])([1-8])(\+|#)?$`. -/
def pieceCaptureRowMatch (l : List Char) : Bool :=
  match stripDeco l with
  | [p, r1, 'x', f, r] => isPieceChar p && isRankChar r1 && isFileChar f && isRankChar r
  | _ => false

/-- `PIECE_CAPTURE_COLUMN_DISAMBIGUATION_REGEX`: `^([KQBNR])([a-h])x([a-h])([1-8])(\+|#)?$`. -/
def pieceCaptureColMatch (l : List Char) : Bool :=
  match stripDeco l with
  | [p, f1, 'x', f, r] => isPieceChar p && isFileChar f1 && isFileChar f && isRankChar r
  | _ => false

/-- `PIECE_CAPTURE_ROW_AND_COLUMN_DISAMBIGUATION_REGEX`:
`^([KQBNR])([a-h])([1-8])x([a-h])([1-8])(\+|#)?$`. -/
def pieceCaptureRowColMatch (l : List Char) : Bool :=
  match stripDeco l with
  | [p, f1, r1, 'x', f, r] =>
    isPieceChar p && isFileChar f1 && isRankChar r1 && isFileChar f && isRankChar r
  | _ => false

/-- `PAWN_PROMOTION_REGEX`: `^([a-h])(1|8)=([QBNR])(\+|#)?$`. -/
def pawnPromotionMatch (l : List Char) : Bool :=
  match stripDeco l with
  | [f, r, '=', p] => isFileChar f && (r == '1' || r == '8') && isPromoChar p
  | _ => false

/-- `PAWN_CAPTURE_PROMOTION_REGEX`: `^([a-h])x([a-h])(1|8)=([QBNR])(\+|#)?$`. -/
def pawnCapturePromotionMatch (l : List Char) : Bool :=
  match stripDeco l with
  | [f1, 'x', f, r, '=', p] =>
    isFileChar f1 && isFileChar f && (r == '1' || r == '8') && isPromoChar p
  | _ => false

/-- `Move::from_san` from `src/core/move.rs:102-319`: the ordered dispatch
over the SAN shapes, each branch transcribing the source's field
extraction (all indices are into the original string, decorations
included, exactly as the Rust slicing does). -/
def Move.fromSanChars (l : List Char) (b : Board) : Option Move :=
  if castleMatch l then
    match CastleKind.fromSanStr l with
    | some castleType =>
      some
        { piece := none, color := b.active_color, src_square := none,
          dst_square := none, castle := some castleType, promotion := none,
          capture := false }
    | none => none
  else if pawnMoveMatch l then
    (SquareCoords.fromSanStr l).bind fun dst =>
      algebraicPieceMove (Piece.pawn b.active_color) dst none none b
  else if pieceMoveMatch l then
    (l.head?.bind (fun c => Piece.fromSanChar c b.active_color)).bind fun piece =>
      (SquareCoords.fromSanStr (l.drop 1)).bind fun dst =>
        algebraicPieceMove piece dst none none b
  else if pieceMoveRowMatch l then
    (l.head?.bind (fun c => Piece.fromSanChar c b.active_color)).bind fun piece =>
      (SquareCoords.fromSanStr (l.drop 2)).bind fun dst =>
        (l.get? 1).bind fun rc =>
          algebraicPieceMove piece dst (some (7 - ((rc.toNat : Int) - 49))) none b
  else if pieceMoveColMatch l then
    (l.head?.bind (fun c => Piece.fromSanChar c b.active_color)).bind fun piece =>
      (SquareCoords.fromSanStr (l.drop 2)).bind fun dst =>
        (l.get? 1).bind fun cc =>
          algebraicPieceMove piece dst none (some ((cc.toNat : Int) - 97)) b
  else if pieceMoveRowColMatch l then
    (l.head?.bind (fun c => Piece.fromSanChar c b.active_color)).bind fun piece =>
      (SquareCoords.fromSanStr (l.drop 3)).bind fun dst =>
        (SquareCoords.fromSanStr ((l.drop 1).take 2)).bind fun src =>
          algebraicPieceMove piece dst (some src.1) (some src.2) b
  else if pawnCaptureMatch l then
    (SquareCoords.fromSanStr (l.drop 2)).bind fun dst =>
      (l.head?).bind fun fc =>
        algebraicPieceMove (Piece.pawn b.active_color) dst none
          (some ((fc.toNat : Int) - 97)) b
  else if pieceCaptureMatch l then
    (l.head?.bind (fun c => Piece.fromSanChar c b.active_color)).bind fun piece =>
      (SquareCoords.fromSanStr (l.drop 2)).bind fun dst =>
        algebraicPieceMove piece dst none none b
  else if pieceCaptureRowMatch l then
    (l.head?.bind (fun c => Piece.fromSanChar c b.active_color)).bind fun piece =>
      (SquareCoords.fromSanStr (l.drop 3)).bind fun dst =>
        (l.get? 1).bind fun rc =>
          algebraicPieceMove piece dst (some (7 - ((rc.toNat : Int) - 49))) none b
  else if pieceCaptureColMatch l then
    (l.head?.bind (fun c => Piece.fromSanChar c b.active_color)).bind fun piece =>
      (SquareCoords.fromSanStr (l.drop 3)).bind fun dst =>
        (l.get? 1).bind fun cc =>
          algebraicPieceMove piece dst none (some ((cc.toNat : Int) - 97)) b
  else if pieceCaptureRowColMatch l then
    (l.head?.bind (fun c => Piece.fromSanChar c b.active_color)).bind fun piece =>
      (SquareCoords.fromSanStr (l.drop 4)).bind fun dst =>
        (SquareCoords.fromSanStr ((l.drop 1).take 2)).bind fun src =>
          algebraicPieceMove piece dst (some src.1) (some src.2) b
  else if pawnPromotionMatch l then
    (SquareCoords.fromSanStr (l.take 2)).bind fun dst =>
      (l.get? 3).bind fun pc =>
        (Piece.fromSanChar pc b.active_color).bind fun promotionPiece =>
          (algebraicPieceMove (Piece.pawn b.active_color) dst none none b).map
            fun m => { m with promotion := some promotionPiece }
  else if pawnCapturePromotionMatch l then
    (SquareCoords.fromSanStr ((l.drop 2).take 2)).bind fun dst =>
      (l.head?).bind fun fc =>
        (l.get? 5).bind fun pc =>
          (Piece.fromSanChar pc b.active_color).bind fun promotionPiece =>
            (algebraicPieceMove (Piece.pawn b.active_color) dst none
                (some ((fc.toNat : Int) - 97)) b).map
              fun m => { m with promotion := some promotionPiece }
  else none

/-- `Move::from_san` on a `String`. -/
def Move.fromSan (s : String) (b : Board) : Option Move :=
  Move.fromSanChars s.data b

/-- `Board::make_uci_move` from `src/core/board.rs:302-312`: the move is
applied only when legal, but the *parsed* move is returned either way. -/
def Board.makeUciMove (b : Board) (s : String) : Option Move × Board :=
  match Move.fromUci s b with
  | some m => if b.legalMoves.contains m then (some m, b.applyMove m) else (some m, b)
  | none => (none, b)

/-- `Board::make_san_move` from `src/core/board.rs:332-342`. -/
def Board.makeSanMove (b : Board) (s : String) : Option Move × Board :=
  match Move.fromSan s b with
  | some m => if b.legalMoves.contains m then (some m, b.applyMove m) else (some m, b)
  | none => (none, b)

/-- `Board::make_move` from `src/core/board.rs:368-386`: UCI first, then
SAN; a parse that is not legal falls through; `none` when nothing was
applied. -/
def Board.makeMove (b : Board) (s : String) : Option Move × Board :=
  let sanFallback : Option Move × Board :=
    match Move.fromSan s b with
    | some m => if b.legalMoves.contains m then (some m, b.applyMove m) else (none, b)
    | none => (none, b)
  match Move.fromUci s b with
  | some m => if b.legalMoves.contains m then (some m, b.applyMove m) else sanFallback
  | none => sanFallback

/-! ### The historical variant, `src/board.rs` and `src/move.rs`

The `make_move` of this snapshot ends, for any non-castle move, with

```
if self.halfmove_clock >= 50 {
    println!("Draw by 50-move rule");
    std::process::exit(0);
}
```

The embedding returns the updated board together with a flag that is `true`
exactly when that `println!`/`process::exit(0)` path is taken (the function
does not return to its caller in that case). -/

namespace Old

/-- `Move` from `src/move.rs` (historical variant). -/
structure Move where
  src_square : Option SquareCoords
  dst_square : Option SquareCoords
  en_passant : Option SquareCoords
  en_passant_capture : Bool
  castle : Option CastleKind
  promotion : Option Piece
deriving DecidableEq, Repr

/-- `Board` from `src/board.rs` (historical variant): no position history. -/
structure Board where
  pieces : List (List (Option Piece))
  active_color : Color
  castle_rights : List CastleRights
  en_passant : Option SquareCoords
  halfmove_clock : Nat
  fullmove_number : Nat
deriving DecidableEq, Repr

/-- `Board::get_piece` from `src/board.rs`: bounds-checked, `None` outside. -/
def Board.getPiece (b : Board) (s : SquareCoords) : Option Piece :=
  if insideBoard s then (b.pieces.getD s.1.toNat []).getD s.2.toNat none else none

/-- `Board::set_piece` from `src/board.rs`: bounds-checked, no-op outside. -/
def Board.setPiece (b : Board) (s : SquareCoords) (p : Option Piece) : Board :=
  if insideBoard s then
    { b with pieces := b.pieces.set s.1.toNat ((b.pieces.getD s.1.toNat []).set s.2.toNat p) }
  else b

/-- `Board::castle_kingside` from `src/board.rs:282-299`. -/
def Board.castleKingside (b : Board) (color : Color) : Board :=
  let row : Int := match color with | .white => 7 | .black => 0
  ((((b.setPiece (row, 4) none).setPiece (row, 7) none).setPiece
    (row, 6) (some (Piece.king color))).setPiece (row, 5) (some (Piece.rook color)))

/-- `Board::castle_queenside` from `src/board.rs:303-320`. -/
def Board.castleQueenside (b : Board) (color : Color) : Board :=
  let row : Int := match color with | .white => 7 | .black => 0
  ((((b.setPiece (row, 4) none).setPiece (row, 0) none).setPiece
    (row, 2) (some (Piece.king color))).setPiece (row, 3) (some (Piece.rook color)))

/-- `Board::update_castle_rights` from `src/board.rs:323-375` — reads the
source square *before* the pieces move (the caller runs it first). -/
def Board.updateCastleRights (b : Board) (m : Move) : Board :=
  let b := if m.castle.isSome then
      match b.active_color with
      | .white =>
        let cr := b.castle_rights.filter fun x =>
          x ≠ CastleRights.whiteKingside && x ≠ CastleRights.whiteQueenside
        { b with castle_rights := cr }
      | .black =>
        let cr := b.castle_rights.filter fun x =>
          x ≠ CastleRights.blackKingside && x ≠ CastleRights.blackQueenside
        { b with castle_rights := cr }
    else b
  match m.src_square with
  | none => b
  | some src =>
    match b.getPiece src with
    | some (Piece.king Color.white) =>
      let cr := b.castle_rights.filter fun x =>
        x ≠ CastleRights.whiteKingside && x ≠ CastleRights.whiteQueenside
      { b with castle_rights := cr }
    | some (Piece.king Color.black) =>
      let cr := b.castle_rights.filter fun x =>
        x ≠ CastleRights.blackKingside && x ≠ CastleRights.blackQueenside
      { b with castle_rights := cr }
    | some (Piece.rook Color.white) =>
      if src = ((7, 7) : SquareCoords) then
        let cr := b.castle_rights.filter fun x => x ≠ CastleRights.whiteKingside
        { b with castle_rights := cr }
      else if src = ((7, 0) : SquareCoords) then
        let cr := b.castle_rights.filter fun x => x ≠ CastleRights.whiteQueenside
        { b with castle_rights := cr }
      else b
    | some (Piece.rook Color.black) =>
      if src = ((0, 7) : SquareCoords) then
        let cr := b.castle_rights.filter fun x => x ≠ CastleRights.blackKingside
        { b with castle_rights := cr }
      else if src = ((0, 0) : SquareCoords) then
        let cr := b.castle_rights.filter fun x => x ≠ CastleRights.blackQueenside
        { b with castle_rights := cr }
      else b
    | _ => b

/-- `Board::make_move` from `src/board.rs:83-142`, step for step; the second
component is `true` exactly when the source prints "Draw by 50-move rule"
and calls `std::process::exit(0)` instead of returning. -/
def Board.makeMove (b : Board) (m : Move) : Board × Bool :=
  let b := if m.en_passant_capture then
      match b.en_passant with
      | some ep =>
        let cap : SquareCoords := match b.active_color with
          | .white => (ep.1 + 1, ep.2)
          | .black => (ep.1 - 1, ep.2)
        b.setPiece cap none
      | none => b
    else b
  let b := b.updateCastleRights m
  let b := { b with active_color := b.active_color.invert }
  let b := { b with en_passant := m.en_passant }
  let b := { b with halfmove_clock := b.halfmove_clock + 1 }
  let inc : Nat := match b.active_color with | .white => 1 | .black => 0
  let b := { b with fullmove_number := b.fullmove_number + inc }
  let b := match m.castle with
    | some .kingside => b.castleKingside b.active_color.invert
    | some .queenside => b.castleQueenside b.active_color.invert
    | none => b
  match m.src_square, m.dst_square with
  | some src, some dst =>
    let srcPiece := b.getPiece src
    let dstPiece := b.getPiece dst
    let b := if srcPiece == some (Piece.pawn b.active_color.invert) ||
        dstPiece.isSome || m.en_passant_capture then
        { b with halfmove_clock := 0 }
      else b
    let b := match m.promotion with
      | some pp => b.setPiece dst (some pp)
      | none => (b.setPiece dst srcPiece).setPiece src none
    if b.halfmove_clock ≥ 50 then (b, true) else (b, false)
  | _, _ => (b, false)

end Old

/-! ### The bitboard FEN parser, `src/fen.rs`

`src/fen.rs` is the bitboard snapshot's parser.  Its `Board`, `BitBoard`,
`Square`, `Piece` and `CastleRights` types live in modules absent from
`src/`; they are modelled here as plainly as the parser's uses determine
them: a `BitBoard` is a 64-bit word (a `Nat` whose set bits all lie below
64), `Square` a square index, `CastleRights` the `u8` bit set of
`src/consts.rs`, and the piece type reuses `Chessr.Piece` with explicit
kind/color indices for the parser's array accesses. -/

namespace BB

/-- Modelled from the spec: the bitboard snapshot's `PieceKind as usize`
(the piece module is absent from `src/`); the index order only fixes the
internal array layout. -/
def kindIndex : Chessr.Piece → Nat
  | .pawn _ => 0
  | .knight _ => 1
  | .bishop _ => 2
  | .rook _ => 3
  | .queen _ => 4
  | .king _ => 5

/-- Modelled from the spec: `Color as usize` of the bitboard snapshot
(declaration order White, Black as in every snapshot's `color.rs`). -/
def colorIndex : Color → Nat
  | .white => 0
  | .black => 1

/-- `RANK_1` from `src/consts.rs`. -/
def RANK_1 : Nat := 0xFF

/-- `RANK_8` from `src/consts.rs`. -/
def RANK_8 : Nat := 0xFF00000000000000

/-- `FenParseError` from `src/fen.rs` (the `ParseIntError` payloads of the
clock variants are dropped: only the variant reached matters here). -/
inductive FenParseError where
  | Blocks
  | Rank
  | ConsecutiveDigits
  | RankSquares (n : Nat)
  | PawnRank (n : Nat)
  | MissingKing (c : Color)
  | ActiveColor (s : List Char)
  | CastleRight (c : Char)
  | EnPassantFile (c : Char)
  | EnPassantRank (c : Char)
  | EnPassantSquare (s : List Char)
  | HalfmoveClock
  | FullmoveNumber
deriving DecidableEq, Repr

/-- The bitboard snapshot's `Board` as `parse_fen` constructs it. -/
structure Board where
  pieces_order : List (Option Chessr.Piece)
  players_pieces : List Nat
  both_players_pieces : List Nat
  active_color : Color
  castle_rights : Nat
  en_passant_target : Option Nat
  halfmove_clock : Nat
  fullmove_number : Nat
deriving DecidableEq, Repr

/-- The three placement accumulators of the parsing loop
(`pieces_order`, `both_players_pieces`, `players_pieces`). -/
structure PlaceSt where
  pieces_order : List (Option Chessr.Piece)
  both : List Nat
  players : List Nat
deriving DecidableEq, Repr

/-- One piece assignment of the loop body (`src/fen.rs:91-97`): write the
piece and OR its square bit into the kind and color bitboards. -/
def placePiece (st : PlaceSt) (square : Nat) (p : Chessr.Piece) : PlaceSt :=
  { pieces_order := st.pieces_order.set square (some p),
    both := st.both.set (kindIndex p) ((st.both.getD (kindIndex p) 0) ||| (1 <<< square)),
    players := st.players.set (colorIndex p.color)
      ((st.players.getD (colorIndex p.color) 0) ||| (1 <<< square)) }

/-- `dropWhile` never lengthens a list (used for termination of
`splitWs`). -/
theorem lengthDropWhileLe (p : Char → Bool) (l : List Char) :
    (l.dropWhile p).length ≤ l.length := by
  induction l with
  | nil => simp [List.dropWhile]
  | cons c rest ih =>
    simp only [List.dropWhile]
    split
    · exact Nat.le_succ_of_le ih
    · simp

/-- `Rust str::split_whitespace`: maximal runs of non-whitespace. -/
def splitWs : List Char → List (List Char)
  | [] => []
  | c :: rest =>
    if c.isWhitespace then splitWs rest
    else (c :: rest.takeWhile (fun x => !x.isWhitespace)) ::
      splitWs (rest.dropWhile (fun x => !x.isWhitespace))
termination_by l => l.length
decreasing_by
  · simp only [List.length_cons]
    exact Nat.lt_succ_self _
  · simp only [List.length_cons]
    exact Nat.lt_succ_of_le (lengthDropWhileLe _ _)

/-- `Rust str::split('/')`: split at every slash, keeping empty pieces. -/
def splitSlash : List Char → List (List Char)
  | [] => [[]]
  | c :: rest =>
    if c = '/' then [] :: splitSlash rest
    else
      match splitSlash rest with
      | h :: t => (c :: h) :: t
      | [] => [[c]]

/-- The character loop over one rank (`src/fen.rs:81-103`), threading the
placement state, the current column, the consecutive-digit flag and the
rank's square sum.  An unrecognized placement character cannot be produced
by a canonical FEN; the bitboard piece module being absent from `src/`, its
behavior there is modelled from the spec (§7) as leaving no piece (the
claims never touch that path). -/
def parseRowChars (i : Nat) : List Char → PlaceSt → Nat → Bool → Nat →
    Except FenParseError (PlaceSt × Nat)
  | [], st, _, _, rowSum => .ok (st, rowSum)
  | c :: rest, st, col, lastWasDigit, rowSum =>
    if c.isDigit then
      if lastWasDigit then .error .ConsecutiveDigits
      else parseRowChars i rest st (col + (c.toNat - 48)) true (rowSum + (c.toNat - 48))
    else
      match Chessr.Piece.fromFenChar c with
      | some piece =>
        parseRowChars i rest (placePiece st (i * 8 + col) piece) (col + 1) false (rowSum + 1)
      | none => parseRowChars i rest st (col + 1) false (rowSum + 1)

/-- The rank loop (`src/fen.rs:76-109`): run the character loop on each
rank, checking each rank sums to exactly 8 squares. -/
def parseRows : List (List Char) → Nat → PlaceSt → Except FenParseError PlaceSt
  | [], _, st => .ok st
  | r :: rest, i, st =>
    match parseRowChars i r st 0 false 0 with
    | .error e => .error e
    | .ok (st1, rowSum) =>
      if rowSum ≠ 8 then .error (.RankSquares rowSum)
      else parseRows rest (i + 1) st1

/-- The castling block fold (`src/fen.rs:141-155`). -/
def parseCastle : List Char → Nat → Except FenParseError Nat
  | [], acc => .ok acc
  | c :: rest, acc =>
    match c with
    | 'K' => parseCastle rest (acc ||| 1)
    | 'Q' => parseCastle rest (acc ||| 2)
    | 'k' => parseCastle rest (acc ||| 4)
    | 'q' => parseCastle rest (acc ||| 8)
    | _ => .error (.CastleRight c)

/-- The en-passant block loop (`src/fen.rs:157-195`): first character a
file, second a rank that must agree with the active color ('3' only for
Black, '6' only for White, adding 16 resp. 40), a third character is an
error; a final square value of 0 yields `None`. -/
def parseEpChars (full : List Char) (active : Color) :
    List Char → Nat → Nat → Except FenParseError (Option Nat)
  | [], _, acc => .ok (if acc = 0 then none else some acc)
  | c :: rest, i, acc =>
    if i = 0 then
      match c with
      | 'a' => parseEpChars full active rest 1 0
      | 'b' => parseEpChars full active rest 1 1
      | 'c' => parseEpChars full active rest 1 2
      | 'd' => parseEpChars full active rest 1 3
      | 'e' => parseEpChars full active rest 1 4
      | 'f' => parseEpChars full active rest 1 5
      | 'g' => parseEpChars full active rest 1 6
      | 'h' => parseEpChars full active rest 1 7
      | _ => .error (.EnPassantFile c)
    else if i = 1 then
      if c = '3' ∧ active = Color.black then parseEpChars full active rest 2 (acc + 16)
      else if c = '6' ∧ active = Color.white then parseEpChars full active rest 2 (acc + 40)
      else .error (.EnPassantRank c)
    else .error (.EnPassantSquare full)

/-- A digit fold, `none` at the first non-digit. -/
def digitsVal : List Char → Nat → Option Nat
  | [], acc => some acc
  | c :: rest, acc =>
    if c.isDigit then digitsVal rest (acc * 10 + (c.toNat - 48)) else none

/-- Rust's `str::parse::<u32>()`: nonempty, decimal digits, below `2^32`
(the accepted optional leading `+` never occurs in a FEN clock field and is
not modelled). -/
def parseU32 (cs : List Char) : Option Nat :=
  if cs.isEmpty then none
  else
    match digitsVal cs 0 with
    | some v => if v < 2 ^ 32 then some v else none
    | none => none

/-- `parse_fen` from `src/fen.rs:56-217`, over the characters of the
input. -/
def parseFenChars (cs : List Char) : Except FenParseError Board :=
  let blocks := splitWs cs
  if blocks.length < 4 ∨ blocks.length > 6 then .error .Blocks
  else
    let rows := splitSlash (blocks.getD 0 [])
    if rows.length ≠ 8 then .error .Rank
    else
      match parseRows rows 0
          ⟨List.replicate 64 none, List.replicate 6 0, List.replicate 2 0⟩ with
      | .error e => .error e
      | .ok st =>
        if RANK_1 &&& st.both.getD 0 0 ≠ 0 then .error (.PawnRank 1)
        else if RANK_8 &&& st.both.getD 0 0 ≠ 0 then .error (.PawnRank 8)
        else if st.both.getD 5 0 &&& st.players.getD 0 0 = 0 then
          .error (.MissingKing .white)
        else if st.both.getD 5 0 &&& st.players.getD 1 0 = 0 then
          .error (.MissingKing .black)
        else
          let colorBlock := blocks.getD 1 []
          let active? : Except FenParseError Color :=
            if colorBlock = ['w'] then .ok .white
            else if colorBlock = ['b'] then .ok .black
            else .error (.ActiveColor colorBlock)
          match active? with
          | .error e => .error e
          | .ok active_color =>
            let castleBlock := blocks.getD 2 []
            let castle? : Except FenParseError Nat :=
              if castleBlock = ['-'] then .ok 0 else parseCastle castleBlock 0
            match castle? with
            | .error e => .error e
            | .ok castle_rights =>
              let epBlock := blocks.getD 3 []
              let ep? : Except FenParseError (Option Nat) :=
                if epBlock = ['-'] then .ok none
                else parseEpChars epBlock active_color epBlock 0 0
              match ep? with
              | .error e => .error e
              | .ok en_passant_target =>
                match parseU32 ((blocks.get? 4).getD ['0']) with
                | none => .error .HalfmoveClock
                | some halfmove_clock =>
                  match parseU32 ((blocks.get? 5).getD ['1']) with
                  | none => .error .FullmoveNumber
                  | some fullmove_number =>
                    .ok
                      { pieces_order := st.pieces_order,
                        players_pieces := st.players,
                        both_players_pieces := st.both,
                        active_color, castle_rights, en_passant_target,
                        halfmove_clock, fullmove_number }

/-- `parse_fen` on a `String`. -/
def parseFen (s : String) : Except FenParseError Board :=
  parseFenChars s.data

/-! #### The serializer, modelled from the spec (§6) -/

/-- The canonical castling field for the bit set. -/
def castleFieldBB (rights : Nat) : List Char :=
  let s := (if rights &&& 1 ≠ 0 then ['K'] else []) ++
    (if rights &&& 2 ≠ 0 then ['Q'] else []) ++
    (if rights &&& 4 ≠ 0 then ['k'] else []) ++
    (if rights &&& 8 ≠ 0 then ['q'] else [])
  if s.isEmpty then ['-'] else s

/-- The en-passant field: the square index back to its algebraic name under
the convention `parse_fen` reads it with (`file + (rank-1)*8`). -/
def epFieldBB : Option Nat → List Char
  | none => ['-']
  | some n => [Char.ofNat (97 + n % 8), digitChar (n / 8 + 1)]

/-- Modelled from the spec: the serializer paired with `parse_fen` is not
under `src/`; §6 fixes the canonical FEN line — ranks from the top with
digit runs, active color, castling subset in `KQkq` order, en-passant
square or `-`, the two clocks. -/
def bbFenChars (b : Board) : List Char :=
  intercalateChar ' '
    [intercalateChar '/' ((List.range 8).map fun i =>
        encodeRank ((b.pieces_order.drop (8 * i)).take 8)),
     [b.active_color.toFenChar],
     castleFieldBB b.castle_rights,
     epFieldBB b.en_passant_target,
     natChars b.halfmove_clock,
     natChars b.fullmove_number]

/-- The serializer on `String`. -/
def bbToFen (b : Board) : String := String.mk (bbFenChars b)

/-- The kind bitboards derived from a placement, starting at square `k`. -/
def deriveBothFrom (both : List Nat) (k : Nat) : List (Option Chessr.Piece) → List Nat
  | [] => both
  | none :: rest => deriveBothFrom both (k + 1) rest
  | some p :: rest =>
    deriveBothFrom (both.set (kindIndex p) ((both.getD (kindIndex p) 0) ||| (1 <<< k)))
      (k + 1) rest

/-- The color bitboards derived from a placement, starting at square `k`. -/
def derivePlayersFrom (players : List Nat) (k : Nat) :
    List (Option Chessr.Piece) → List Nat
  | [] => players
  | none :: rest => derivePlayersFrom players (k + 1) rest
  | some p :: rest =>
    derivePlayersFrom
      (players.set (colorIndex p.color) ((players.getD (colorIndex p.color) 0) ||| (1 <<< k)))
      (k + 1) rest

/-- The kind bitboards of a placement. -/
def deriveBoth (po : List (Option Chessr.Piece)) : List Nat :=
  deriveBothFrom (List.replicate 6 0) 0 po

/-- The color bitboards of a placement. -/
def derivePlayers (po : List (Option Chessr.Piece)) : List Nat :=
  derivePlayersFrom (List.replicate 2 0) 0 po

/-- Well-formedness of a bitboard `Board`: the shape every board built by
`parse_fen` has and every position reachable through legal play satisfies —
64 squares with consistent derived bitboards, both kings present, no pawn
on the first or last rank, an en-passant square on the rank matching the
active color, castling bits within the four flags, clocks within `u32`. -/
def WF (b : Board) : Bool :=
  b.pieces_order.length == 64 &&
  b.both_players_pieces == deriveBoth b.pieces_order &&
  b.players_pieces == derivePlayers b.pieces_order &&
  (RANK_1 &&& b.both_players_pieces.getD 0 0 == 0) &&
  (RANK_8 &&& b.both_players_pieces.getD 0 0 == 0) &&
  (b.both_players_pieces.getD 5 0 &&& b.players_pieces.getD 0 0 ≠ 0) &&
  (b.both_players_pieces.getD 5 0 &&& b.players_pieces.getD 1 0 ≠ 0) &&
  (match b.en_passant_target with
   | none => true
   | some n =>
     match b.active_color with
     | .black => 16 ≤ n && n ≤ 23
     | .white => 40 ≤ n && n ≤ 47) &&
  b.castle_rights < 16 && b.halfmove_clock < 2 ^ 32 && b.fullmove_number < 2 ^ 32

/-- The squares a rank's characters write, square `k` onward: empties are
skipped, pieces placed (the per-square effect of the placement loop). -/
def writeSeq (st : PlaceSt) (k : Nat) : List (Option Chessr.Piece) → PlaceSt
  | [] => st
  | none :: rest => writeSeq st (k + 1) rest
  | some p :: rest => writeSeq (placePiece st k p) (k + 1) rest

/-- The writes of a list of ranks, rank `i` covering squares `8i..8i+7`. -/
def writeRows : PlaceSt → Nat → List (List (Option Chessr.Piece)) → PlaceSt
  | st, _, [] => st
  | st, i, r :: rs => writeRows (writeSeq st (i * 8) r) (i + 1) rs

/-- The characters a placement rank encoding may contain. -/
def fenPlacementChars : List Char := "pnbrqkPNBRQK12345678".data

/-- The loop invariant of the placement phase: the kind bitboards are
6 entries long and cover every placed piece. -/
def placeInv (st : PlaceSt) : Prop :=
  st.both.length = 6 ∧
  ∀ k (p : Chessr.Piece), st.pieces_order.get? k = some (some p) →
    Nat.testBit (st.both.getD (kindIndex p) 0) k = true

end BB

/-! ### Concrete positions used by the theorems -/

/-- A board row from its FEN letters (one character per square, `.` for an
empty square). -/
def rowOf (s : String) : List (Option Piece) := s.data.map Piece.fromFenChar

/-- The starting position (`FEN_STARTING_POSITION`). -/
def startBoard : Board :=
  { squares :=
      [rowOf "rnbqkbnr", rowOf "pppppppp", rowOf "........", rowOf "........",
       rowOf "........", rowOf "........", rowOf "PPPPPPPP", rowOf "RNBQKBNR"],
    active_color := .white,
    castle_rights := [.whiteKingside, .whiteQueenside, .blackKingside, .blackQueenside],
    en_passant_target := none, halfmove_clock := 0, fullmove_number := 1,
    position_history := [] }

/-- `4k3/8/8/8/8/8/4r3/4K2R w K - 0 1`: the white king on e1 is in check
from the rook on e2; f1 and g1 are empty and unattacked. -/
def castleCheckBoard : Board :=
  { squares :=
      [rowOf "....k...", rowOf "........", rowOf "........", rowOf "........",
       rowOf "........", rowOf "........", rowOf "....r...", rowOf "....K..R"],
    active_color := .white, castle_rights := [.whiteKingside],
    en_passant_target := none, halfmove_clock := 0, fullmove_number := 1,
    position_history := [] }

/-- White kingside castling as both the parsers and the generator build it. -/
def wkCastle : Move :=
  { piece := none, color := .white, src_square := none, dst_square := none,
    castle := some .kingside, promotion := none, capture := false }

/-- The starting position with a halfmove clock of 50 (25 full moves without
capture or pawn move). -/
def clock50Board : Board :=
  { startBoard with halfmove_clock := 50 }

/-- The starting position with a black knight on e3: the SAN move "e4"
resolves (the pawn on e2 is found through the double-step direction) but the
move is not legal (the square e3 blocks the double step). -/
def knightE3Board : Board :=
  { squares :=
      [rowOf "rnbqkbnr", rowOf "pppppppp", rowOf "........", rowOf "........",
       rowOf "........", rowOf "....n...", rowOf "PPPPPPPP", rowOf "RNBQKBNR"],
    active_color := .white,
    castle_rights := [.whiteKingside, .whiteQueenside, .blackKingside, .blackQueenside],
    en_passant_target := none, halfmove_clock := 0, fullmove_number := 1,
    position_history := [] }

/-- The move e2–e4 of the starting position. -/
def moveE2E4 : Move :=
  { piece := some (Piece.pawn .white), color := .white,
    src_square := some (6, 4), dst_square := some (4, 4), castle := none,
    promotion := none, capture := false }

/-- Old-variant board: white Ke1 and Ra1, black Ke8, white to move, halfmove
clock 49. -/
def old49Board : Old.Board :=
  { pieces :=
      [rowOf "....k...", rowOf "........", rowOf "........", rowOf "........",
       rowOf "........", rowOf "........", rowOf "........", rowOf "R...K..."],
    active_color := .white, castle_rights := [], en_passant := none,
    halfmove_clock := 49, fullmove_number := 60 }

/-- The rook move a1–a2 on `old49Board` (no capture, no pawn). -/
def oldRookMove : Old.Move :=
  { src_square := some (7, 0), dst_square := some (6, 0), en_passant := none,
    en_passant_capture := false, castle := none, promotion := none }


/-- The starting position's 64 squares, rank 8 first. -/
def bbStartPO : List (Option Piece) :=
  rowOf "rnbqkbnr" ++ rowOf "pppppppp" ++ rowOf "........" ++ rowOf "........" ++
  rowOf "........" ++ rowOf "........" ++ rowOf "PPPPPPPP" ++ rowOf "RNBQKBNR"

/-- The starting position as a bitboard `Board`, with the derived
bitboards. -/
def bbStartBoard : BB.Board :=
  { pieces_order := bbStartPO,
    players_pieces := BB.derivePlayers bbStartPO,
    both_players_pieces := BB.deriveBoth bbStartPO,
    active_color := .white, castle_rights := 15, en_passant_target := none,
    halfmove_clock := 0, fullmove_number := 1 }

/-- A grammatically well-formed FEN with a white pawn on a1 (square 56 of
the parser's layout). -/
def pawnRankFen : List Char := "3qk3/8/8/8/8/8/8/P2QK3 w - - 0 1".data

/-- The piece-placement block of `pawnRankFen`. -/
def pawnRankBlock : List Char := "3qk3/8/8/8/8/8/8/P2QK3".data

/-- The placement state `parse_fen` accumulates for `pawnRankFen`. -/
def pawnRankSt : BB.PlaceSt :=
  match BB.parseRows (BB.splitSlash pawnRankBlock) 0
      ⟨List.replicate 64 none, List.replicate 6 0, List.replicate 2 0⟩ with
  | .ok st => st
  | .error _ => ⟨[], [], []⟩

/-! ## Helper lemmas -/

theorem applyCastleStage_active (b : Board) (m : Move) :
    (applyCastleStage b m).active_color = b.active_color := by
  unfold applyCastleStage
  repeat' split
  all_goals rfl

theorem applyCastleStage_rights (b : Board) (m : Move) :
    (applyCastleStage b m).castle_rights = b.castle_rights := by
  unfold applyCastleStage
  repeat' split
  all_goals rfl

theorem applyCastleStage_ep (b : Board) (m : Move) :
    (applyCastleStage b m).en_passant_target = b.en_passant_target := by
  unfold applyCastleStage
  repeat' split
  all_goals rfl

theorem applyCastleStage_full (b : Board) (m : Move) :
    (applyCastleStage b m).fullmove_number = b.fullmove_number := by
  unfold applyCastleStage
  repeat' split
  all_goals rfl

theorem applyCastleStage_hist (b : Board) (m : Move) :
    (applyCastleStage b m).position_history = b.position_history := by
  unfold applyCastleStage
  repeat' split
  all_goals rfl

theorem applyMoveStage_active (b : Board) (m : Move) :
    (applyMoveStage b m).active_color = b.active_color := by
  unfold applyMoveStage
  rcases m.src_square with _ | src <;> rcases m.dst_square with _ | dst <;> try rfl
  dsimp only
  repeat' split
  all_goals rfl

theorem applyMoveStage_rights (b : Board) (m : Move) :
    (applyMoveStage b m).castle_rights = b.castle_rights := by
  unfold applyMoveStage
  rcases m.src_square with _ | src <;> rcases m.dst_square with _ | dst <;> try rfl
  dsimp only
  repeat' split
  all_goals rfl

theorem applyMoveStage_ep (b : Board) (m : Move) :
    (applyMoveStage b m).en_passant_target = b.en_passant_target := by
  unfold applyMoveStage
  rcases m.src_square with _ | src <;> rcases m.dst_square with _ | dst <;> try rfl
  dsimp only
  repeat' split
  all_goals rfl

theorem applyMoveStage_full (b : Board) (m : Move) :
    (applyMoveStage b m).fullmove_number = b.fullmove_number := by
  unfold applyMoveStage
  rcases m.src_square with _ | src <;> rcases m.dst_square with _ | dst <;> try rfl
  dsimp only
  repeat' split
  all_goals rfl

theorem applyMoveStage_hist (b : Board) (m : Move) :
    (applyMoveStage b m).position_history = b.position_history := by
  unfold applyMoveStage
  rcases m.src_square with _ | src <;> rcases m.dst_square with _ | dst <;> try rfl
  dsimp only
  repeat' split
  all_goals rfl

theorem updateCastleRights_active (b : Board) (m : Move) :
    (b.updateCastleRights m).active_color = b.active_color := rfl

theorem updateCastleRights_hist (b : Board) (m : Move) :
    (b.updateCastleRights m).position_history = b.position_history := rfl

theorem updateCastleRights_ep (b : Board) (m : Move) :
    (b.updateCastleRights m).en_passant_target = b.en_passant_target := rfl

theorem updateCastleRights_full (b : Board) (m : Move) :
    (b.updateCastleRights m).fullmove_number = b.fullmove_number := rfl

/-- `apply_move` flips the active color exactly once. -/
theorem applyMove_active_color (b : Board) (m : Move) :
    (b.applyMove m).active_color = b.active_color.invert := by
  unfold Board.applyMove
  dsimp only
  rw [updateCastleRights_active, applyMoveStage_active, applyCastleStage_active]

/-- The fullmove number after `apply_move`. -/
theorem applyMove_fullmove (b : Board) (m : Move) :
    (b.applyMove m).fullmove_number =
      (if b.active_color = Color.black then b.fullmove_number + 1
       else b.fullmove_number) := by
  unfold Board.applyMove
  dsimp only
  rw [updateCastleRights_active, applyMoveStage_active, applyCastleStage_active,
    updateCastleRights_full, applyMoveStage_full, applyCastleStage_full]
  cases b.active_color <;> rfl

/-- The castle rights after `apply_move` are the retained rights. -/
theorem applyMove_castle_rights (b : Board) (m : Move) :
    (b.applyMove m).castle_rights =
      updateCastleRightsList b.active_color b.castle_rights m := by
  unfold Board.applyMove
  dsimp only
  show (Board.updateCastleRights _ m).castle_rights = _
  unfold Board.updateCastleRights
  dsimp only
  rw [applyMoveStage_active, applyCastleStage_active,
    applyMoveStage_rights, applyCastleStage_rights]

/-- The history entry `apply_move` appends is the FEN of the board as it
stands right after the castle-rights update — before the color flip. -/
theorem applyMove_history (b : Board) (m : Move) :
    (b.applyMove m).position_history =
      b.position_history ++
        [boardToFen ((applyMoveStage (applyCastleStage b m) m).updateCastleRights m)] := by
  unfold Board.applyMove
  dsimp only
  rw [updateCastleRights_hist, applyMoveStage_hist, applyCastleStage_hist]

/-- `board_to_fen` reads only the six FEN fields. -/
theorem boardToFen_congr (x y : Board) (h1 : x.squares = y.squares)
    (h2 : x.active_color = y.active_color) (h3 : x.castle_rights = y.castle_rights)
    (h4 : x.en_passant_target = y.en_passant_target)
    (h5 : x.halfmove_clock = y.halfmove_clock)
    (h6 : x.fullmove_number = y.fullmove_number) : boardToFen x = boardToFen y := by
  unfold boardToFen boardFenChars
  rw [h1, h2, h3, h4, h5, h6]

theorem mem_ite_filter {c : Prop} [Decidable c] {p : CastleRights → Bool}
    {l : List CastleRights} {x : CastleRights}
    (hx : x ∈ if c then l.filter p else l) : x ∈ l := by
  split at hx
  · exact List.mem_of_mem_filter hx
  · exact hx

/-- The retained castle rights are among the previous ones. -/
theorem mem_updateCastleRightsList (a : Color) (r : List CastleRights) (m : Move)
    (x : CastleRights) (hx : x ∈ updateCastleRightsList a r m) : x ∈ r := by
  unfold updateCastleRightsList at hx
  dsimp only at hx
  have h1 := mem_ite_filter (mem_ite_filter (mem_ite_filter (mem_ite_filter
    (mem_ite_filter (mem_ite_filter hx)))))
  split at h1
  · cases a
    · exact List.mem_of_mem_filter h1
    · exact List.mem_of_mem_filter h1
  · exact h1

/-- Over any move sequence, a right held at the end was held at the start. -/
theorem castle_rights_mono_aux (ms : List Move) :
    ∀ (b : Board) (x : CastleRights),
      x ∈ (ms.foldl Board.applyMove b).castle_rights → x ∈ b.castle_rights := by
  induction ms with
  | nil => intro b x hx; exact hx
  | cons m rest ih =>
    intro b x hx
    have h2 := ih (b.applyMove m) x hx
    rw [applyMove_castle_rights] at h2
    exact mem_updateCastleRightsList _ _ _ _ h2

/-! ### Lemmas for the FEN round trip (C5) and the pawn-rank rejection (C10) -/

namespace BB

theorem digitChar_isDigit {m : Nat} (h2 : m ≤ 9) :
    (digitChar m).isDigit = true := by
  interval_cases m <;> decide

theorem digitChar_toNat {m : Nat} (h2 : m ≤ 9) :
    (digitChar m).toNat = 48 + m := by
  interval_cases m <;> decide

theorem toFenChar_notDigit (p : Chessr.Piece) : p.toFenChar.isDigit = false := by
  rcases p with ⟨c⟩ | ⟨c⟩ | ⟨c⟩ | ⟨c⟩ | ⟨c⟩ | ⟨c⟩ <;> cases c <;> decide

theorem fromFenChar_toFenChar (p : Chessr.Piece) :
    Chessr.Piece.fromFenChar p.toFenChar = some p := by
  rcases p with ⟨c⟩ | ⟨c⟩ | ⟨c⟩ | ⟨c⟩ | ⟨c⟩ | ⟨c⟩ <;> cases c <;> decide

theorem parseRowChars_digit (i : Nat) (rest : List Char) (st : PlaceSt)
    (col rowSum run : Nat) (h1 : 1 ≤ run) (h9 : run ≤ 9) :
    parseRowChars i (digitChar run :: rest) st col false rowSum =
      parseRowChars i rest st (col + run) true (rowSum + run) := by
  rw [parseRowChars]
  simp [digitChar_isDigit h9, digitChar_toNat h9]

theorem parseRowChars_piece (i : Nat) (rest : List Char) (st : PlaceSt)
    (col rowSum : Nat) (ld : Bool) (p : Chessr.Piece) :
    parseRowChars i (p.toFenChar :: rest) st col ld rowSum =
      parseRowChars i rest (placePiece st (i * 8 + col) p) (col + 1) false (rowSum + 1) := by
  rw [parseRowChars]
  simp [toFenChar_notDigit, fromFenChar_toFenChar]

theorem encodeRankAux_none (run : Nat) (rest : List (Option Chessr.Piece)) :
    encodeRankAux run (none :: rest) = encodeRankAux (run + 1) rest := rfl

theorem encodeRankAux_some_zero (p : Chessr.Piece) (rest : List (Option Chessr.Piece)) :
    encodeRankAux 0 (some p :: rest) = p.toFenChar :: encodeRankAux 0 rest := by
  simp [encodeRankAux]

theorem encodeRankAux_some_pos (p : Chessr.Piece) (rest : List (Option Chessr.Piece))
    {run : Nat} (h : run ≠ 0) :
    encodeRankAux run (some p :: rest) =
      digitChar run :: p.toFenChar :: encodeRankAux 0 rest := by
  simp [encodeRankAux, h]

theorem encodeRankAux_nil_pos {run : Nat} (h : run ≠ 0) :
    encodeRankAux run [] = [digitChar run] := by
  simp [encodeRankAux, h]

theorem parseRowChars_encodeRankAux (i : Nat) (row : List (Option Chessr.Piece)) :
    ∀ (run col rowSum : Nat) (st : PlaceSt), col + run + row.length = 8 →
      parseRowChars i (encodeRankAux run row) st col false rowSum =
        .ok (writeSeq st (i * 8 + (col + run)) row, rowSum + run + row.length) := by
  induction row with
  | nil =>
    intro run col rowSum st h8
    by_cases hr : run = 0
    · subst hr
      simp [encodeRankAux, parseRowChars, writeSeq]
    · have h1 : 1 ≤ run := Nat.one_le_iff_ne_zero.mpr hr
      simp only [List.length_nil] at h8
      rw [encodeRankAux_nil_pos hr]
      rw [parseRowChars_digit i [] st col rowSum run h1 (by omega)]
      rw [parseRowChars]
      simp [writeSeq]
  | cons hd rest ih =>
    intro run col rowSum st h8
    simp only [List.length_cons] at h8
    cases hd with
    | none =>
      rw [encodeRankAux_none]
      rw [ih (run + 1) col rowSum st (by omega)]
      simp only [writeSeq, List.length_cons]
      have e1 : i * 8 + (col + (run + 1)) = i * 8 + (col + run) + 1 := by omega
      have e2 : rowSum + (run + 1) + rest.length = rowSum + run + (rest.length + 1) := by omega
      rw [e1, e2]
    | some p =>
      by_cases hr : run = 0
      · subst hr
        rw [encodeRankAux_some_zero]
        rw [parseRowChars_piece]
        rw [ih 0 (col + 1) (rowSum + 1) (placePiece st (i * 8 + col) p) (by omega)]
        simp only [writeSeq, List.length_cons]
        have e1 : i * 8 + (col + 1 + 0) = i * 8 + (col + 0) + 1 := by omega
        have e2 : rowSum + 1 + 0 + rest.length = rowSum + 0 + (rest.length + 1) := by omega
        have e3 : i * 8 + (col + 0) = i * 8 + col := by omega
        rw [e1, e2, e3]
      · have h1 : 1 ≤ run := Nat.one_le_iff_ne_zero.mpr hr
        rw [encodeRankAux_some_pos p _ hr]
        rw [parseRowChars_digit i _ st col rowSum run h1 (by omega)]
        rw [parseRowChars_piece]
        rw [ih 0 (col + run + 1) (rowSum + run + 1)
          (placePiece st (i * 8 + (col + run)) p) (by omega)]
        simp only [writeSeq, List.length_cons]
        have e1 : i * 8 + (col + run + 1 + 0) = i * 8 + (col + run) + 1 := by omega
        have e2 : rowSum + run + 1 + 0 + rest.length =
          rowSum + run + (rest.length + 1) := by omega
        rw [e1, e2]


theorem set_append_length {α : Type} (A : List α) (c : α) (B : List α) (v : α) :
    (A ++ c :: B).set A.length v = A ++ v :: B := by
  induction A with
  | nil => rfl
  | cons a A ih => simp [List.set, ih]

theorem writeSeq_spec (po : List (Option Chessr.Piece)) :
    ∀ (A : List (Option Chessr.Piece)) (m : Nat) (both players : List Nat),
      po.length ≤ m →
      writeSeq ⟨A ++ List.replicate m none, both, players⟩ A.length po =
        ⟨A ++ po ++ List.replicate (m - po.length) none,
         deriveBothFrom both A.length po, derivePlayersFrom players A.length po⟩ := by
  induction po with
  | nil =>
    intro A m both players hm
    simp [writeSeq, deriveBothFrom, derivePlayersFrom]
  | cons hd rest ih =>
    intro A m both players hm
    simp only [List.length_cons] at hm
    have hm1 : 1 ≤ m := by omega
    have hrep : List.replicate m (none : Option Chessr.Piece) =
        none :: List.replicate (m - 1) none := by
      cases m with
      | zero => omega
      | succ m0 => simp [List.replicate]
    cases hd with
    | none =>
      show writeSeq _ (A.length + 1) rest = _
      have := ih (A ++ [none]) (m - 1) both players (by omega)
      rw [List.length_append, List.length_singleton] at this
      rw [hrep]
      have e1 : A ++ none :: List.replicate (m - 1) none =
          (A ++ [none]) ++ List.replicate (m - 1) none := by simp
      rw [e1, this]
      simp only [deriveBothFrom, derivePlayersFrom, List.length_cons]
      have e2 : m - 1 - rest.length = m - (rest.length + 1) := by omega
      simp [e2]
    | some p =>
      show writeSeq (placePiece _ A.length p) (A.length + 1) rest = _
      rw [hrep]
      unfold placePiece
      simp only
      rw [set_append_length]
      have := ih (A ++ [some p]) (m - 1)
        (both.set (kindIndex p) ((both.getD (kindIndex p) 0) ||| (1 <<< A.length)))
        (players.set (colorIndex p.color)
          ((players.getD (colorIndex p.color) 0) ||| (1 <<< A.length)))
        (by omega)
      rw [List.length_append, List.length_singleton] at this
      have e1 : A ++ some p :: List.replicate (m - 1) none =
          (A ++ [some p]) ++ List.replicate (m - 1) none := by simp
      rw [e1, this]
      simp only [deriveBothFrom, derivePlayersFrom, List.length_cons]
      have e2 : m - 1 - rest.length = m - (rest.length + 1) := by omega
      simp [e2]

theorem writeSeq_append (a b : List (Option Chessr.Piece)) :
    ∀ (st : PlaceSt) (k : Nat),
      writeSeq st k (a ++ b) = writeSeq (writeSeq st k a) (k + a.length) b := by
  induction a with
  | nil => intro st k; simp [writeSeq]
  | cons hd rest ih =>
    intro st k
    cases hd with
    | none =>
      show writeSeq st (k + 1) (rest ++ b) = _
      rw [ih]
      simp only [writeSeq, List.length_cons]
      have : k + 1 + rest.length = k + (rest.length + 1) := by omega
      rw [this]
    | some p =>
      show writeSeq (placePiece st k p) (k + 1) (rest ++ b) = _
      rw [ih]
      simp only [writeSeq, List.length_cons]
      have : k + 1 + rest.length = k + (rest.length + 1) := by omega
      rw [this]

theorem chunksJoin : ∀ (n : Nat) (po : List (Option Chessr.Piece)), po.length = 8 * n →
    (((List.range n).map fun i => (po.drop (8 * i)).take 8).flatten) = po := by
  intro n
  induction n with
  | zero => intro po h; simp at h; simp [h]
  | succ n0 ih =>
    intro po h
    rw [List.range_succ_eq_map]
    simp only [List.map_cons, List.map_map, List.flatten_cons]
    have hdrop : ∀ i : Nat, po.drop (8 * (i + 1)) = (po.drop 8).drop (8 * i) := by
      intro i
      rw [List.drop_drop]
      congr 1
      omega
    have hmap : ((List.range n0).map fun i => (po.drop (8 * (i + 1))).take 8) =
        ((List.range n0).map fun i => ((po.drop 8).drop (8 * i)).take 8) := by
      apply List.map_congr_left
      intro i _
      rw [hdrop]
    have e0 : (List.map ((fun i => (po.drop (8 * i)).take 8) ∘ Nat.succ) (List.range n0)) =
        ((List.range n0).map fun i => (po.drop (8 * (i + 1))).take 8) := by
      apply List.map_congr_left
      intro i _
      rfl
    rw [e0, hmap, ih (po.drop 8) (by simp [List.length_drop]; omega)]
    simp only [Nat.mul_zero, List.drop_zero]
    exact List.take_append_drop 8 po

theorem takeWhileAll {p : Char → Bool} : ∀ {l : List Char}, (∀ c ∈ l, p c = true) →
    l.takeWhile p = l := by
  intro l
  induction l with
  | nil => intro _; rfl
  | cons c rest ih =>
    intro h
    simp only [List.takeWhile]
    rw [h c (List.mem_cons_self c rest)]
    simp [ih (fun x hx => h x (List.mem_cons_of_mem c hx))]

theorem takeWhileAppend {p : Char → Bool} {a : List Char} (b : List Char)
    (ha : ∀ c ∈ a, p c = true) : (a ++ b).takeWhile p = a ++ b.takeWhile p := by
  induction a with
  | nil => rfl
  | cons c rest ih =>
    simp only [List.cons_append, List.takeWhile]
    rw [ha c (List.mem_cons_self c rest)]
    simp [ih (fun x hx => ha x (List.mem_cons_of_mem c hx))]

theorem dropWhileAppend {p : Char → Bool} {a : List Char} (b : List Char)
    (ha : ∀ c ∈ a, p c = true) : (a ++ b).dropWhile p = b.dropWhile p := by
  induction a with
  | nil => rfl
  | cons c rest ih =>
    simp only [List.cons_append, List.dropWhile]
    rw [ha c (List.mem_cons_self c rest)]
    exact ih (fun x hx => ha x (List.mem_cons_of_mem c hx))

theorem dropWhileAll {p : Char → Bool} : ∀ {l : List Char}, (∀ c ∈ l, p c = true) →
    l.dropWhile p = [] := by
  intro l
  induction l with
  | nil => intro _; rfl
  | cons c rest ih =>
    intro h
    simp only [List.dropWhile]
    rw [h c (List.mem_cons_self c rest)]
    exact ih (fun x hx => h x (List.mem_cons_of_mem c hx))

/-- Splitting a single nonempty whitespace-free word. -/
theorem splitWs_single {w : List Char} (hne : w ≠ [])
    (hws : ∀ c ∈ w, c.isWhitespace = false) : splitWs w = [w] := by
  cases w with
  | nil => exact absurd rfl hne
  | cons c rest =>
    rw [splitWs]
    have hc : c.isWhitespace = false := hws c (List.mem_cons_self c rest)
    rw [hc]
    simp only [Bool.false_eq_true, if_false]
    have h1 : rest.takeWhile (fun x => !x.isWhitespace) = rest :=
      takeWhileAll (fun x hx => by
        simp [hws x (List.mem_cons_of_mem c hx)])
    have h2 : rest.dropWhile (fun x => !x.isWhitespace) = [] :=
      dropWhileAll (fun x hx => by
        simp [hws x (List.mem_cons_of_mem c hx)])
    rw [h1, h2]
    rw [show splitWs [] = [] from by rw [splitWs]]

theorem splitWs_word_sep {w r : List Char} (hne : w ≠ [])
    (hws : ∀ c ∈ w, c.isWhitespace = false) :
    splitWs (w ++ ' ' :: r) = w :: splitWs r := by
  cases w with
  | nil => exact absurd rfl hne
  | cons c rest =>
    rw [List.cons_append, splitWs]
    have hc : c.isWhitespace = false := hws c (List.mem_cons_self c rest)
    rw [hc]
    simp only [Bool.false_eq_true, if_false]
    have hall : ∀ x ∈ rest, (fun x => !x.isWhitespace) x = true := fun x hx => by
      simp [hws x (List.mem_cons_of_mem c hx)]
    rw [takeWhileAppend _ hall, dropWhileAppend _ hall]
    have h1 : (' ' :: r).takeWhile (fun x => !x.isWhitespace) = [] := by
      simp [List.takeWhile]
    have h2 : (' ' :: r).dropWhile (fun x => !x.isWhitespace) = ' ' :: r := by
      simp [List.dropWhile]
    rw [h1, h2]
    have h3 : splitWs (' ' :: r) = splitWs r := by
      rw [splitWs]
      simp
    rw [h3]
    simp

/-- `splitWs` over space-joined nonempty whitespace-free components. -/
theorem splitWs_intercalate : ∀ (comps : List (List Char)), comps ≠ [] →
    (∀ w ∈ comps, w ≠ [] ∧ ∀ c ∈ w, c.isWhitespace = false) →
    splitWs (intercalateChar ' ' comps) = comps := by
  intro comps
  induction comps with
  | nil => intro h; exact absurd rfl h
  | cons x t ih =>
    intro _ hall
    cases t with
    | nil =>
      show splitWs x = [x]
      exact splitWs_single (hall x (List.mem_cons_self x [])).1
        (hall x (List.mem_cons_self x [])).2
    | cons y t2 =>
      show splitWs (x ++ ' ' :: intercalateChar ' ' (y :: t2)) = _
      rw [splitWs_word_sep (hall x (List.mem_cons_self x _)).1
        (hall x (List.mem_cons_self x _)).2]
      rw [ih (by simp) (fun w hw => hall w (List.mem_cons_of_mem x hw))]

/-- Splitting a single slash-free piece. -/
theorem splitSlash_single : ∀ {w : List Char}, (∀ c ∈ w, c ≠ '/') →
    splitSlash w = [w] := by
  intro w
  induction w with
  | nil => intro _; rfl
  | cons c rest ih =>
    intro h
    rw [splitSlash]
    rw [if_neg (h c (List.mem_cons_self c rest))]
    rw [ih (fun x hx => h x (List.mem_cons_of_mem c hx))]

theorem splitSlash_piece_sep {w r : List Char} (hw : ∀ c ∈ w, c ≠ '/') :
    splitSlash (w ++ '/' :: r) = w :: splitSlash r := by
  induction w with
  | nil =>
    show splitSlash ('/' :: r) = [] :: splitSlash r
    rw [splitSlash]
    simp
  | cons c rest ih =>
    rw [List.cons_append, splitSlash]
    rw [if_neg (hw c (List.mem_cons_self c rest))]
    rw [ih (fun x hx => hw x (List.mem_cons_of_mem c hx))]

theorem splitSlash_intercalate : ∀ (ps : List (List Char)), ps ≠ [] →
    (∀ w ∈ ps, ∀ c ∈ w, c ≠ '/') →
    splitSlash (intercalateChar '/' ps) = ps := by
  intro ps
  induction ps with
  | nil => intro h; exact absurd rfl h
  | cons x t ih =>
    intro _ hall
    cases t with
    | nil =>
      show splitSlash x = [x]
      exact splitSlash_single (hall x (List.mem_cons_self x []))
    | cons y t2 =>
      show splitSlash (x ++ '/' :: intercalateChar '/' (y :: t2)) = _
      rw [splitSlash_piece_sep (hall x (List.mem_cons_self x _))]
      rw [ih (by simp) (fun w hw => hall w (List.mem_cons_of_mem x hw))]

theorem digitChar_mem_fen {m : Nat} (h1 : 1 ≤ m) (h2 : m ≤ 8) :
    digitChar m ∈ fenPlacementChars := by
  interval_cases m <;> decide

theorem toFenChar_mem_fen (p : Chessr.Piece) : p.toFenChar ∈ fenPlacementChars := by
  rcases p with ⟨c⟩ | ⟨c⟩ | ⟨c⟩ | ⟨c⟩ | ⟨c⟩ | ⟨c⟩ <;> cases c <;> decide

theorem encodeRankAux_chars : ∀ (row : List (Option Chessr.Piece)) (run : Nat),
    run + row.length ≤ 8 → ∀ c ∈ encodeRankAux run row, c ∈ fenPlacementChars := by
  intro row
  induction row with
  | nil =>
    intro run h8 c hc
    by_cases hr : run = 0
    · subst hr; simp [encodeRankAux] at hc
    · rw [encodeRankAux_nil_pos hr] at hc
      simp at hc
      subst hc
      exact digitChar_mem_fen (Nat.one_le_iff_ne_zero.mpr hr) (by simp at h8; omega)
  | cons hd rest ih =>
    intro run h8 c hc
    simp only [List.length_cons] at h8
    cases hd with
    | none =>
      rw [encodeRankAux_none] at hc
      exact ih (run + 1) (by omega) c hc
    | some p =>
      by_cases hr : run = 0
      · subst hr
        rw [encodeRankAux_some_zero] at hc
        rcases List.mem_cons.mp hc with h | h
        · subst h; exact toFenChar_mem_fen p
        · exact ih 0 (by omega) c h
      · rw [encodeRankAux_some_pos p _ hr] at hc
        rcases List.mem_cons.mp hc with h | h
        · subst h
          exact digitChar_mem_fen (Nat.one_le_iff_ne_zero.mpr hr) (by omega)
        · rcases List.mem_cons.mp h with h2 | h2
          · subst h2; exact toFenChar_mem_fen p
          · exact ih 0 (by omega) c h2

theorem digitChar_mem_digits {m : Nat} (h : m ≤ 9) :
    digitChar m ∈ "0123456789".data := by
  interval_cases m <;> decide

theorem natChars_chars (n : Nat) : ∀ c ∈ natChars n, c ∈ "0123456789".data := by
  induction n using Nat.strong_induction_on with
  | _ n ih =>
    intro c hc
    rw [natChars] at hc
    by_cases h10 : n < 10
    · rw [dif_pos h10] at hc
      simp at hc
      subst hc
      exact digitChar_mem_digits (by omega)
    · rw [dif_neg h10] at hc
      rcases List.mem_append.mp hc with h | h
      · exact ih (n / 10) (Nat.div_lt_self (by omega) (by omega)) c h
      · simp at h
        subst h
        exact digitChar_mem_digits (by omega : n % 10 ≤ 9)

theorem natChars_ne_nil (n : Nat) : natChars n ≠ [] := by
  rw [natChars]
  by_cases h10 : n < 10
  · rw [dif_pos h10]; simp
  · rw [dif_neg h10]; simp

theorem mem_intercalateChar (sep : Char) :
    ∀ (ls : List (List Char)) (c : Char), c ∈ intercalateChar sep ls →
      c = sep ∨ ∃ l ∈ ls, c ∈ l := by
  intro ls
  induction ls with
  | nil => intro c hc; simp [intercalateChar] at hc
  | cons x t ih =>
    intro c hc
    cases t with
    | nil =>
      right
      exact ⟨x, List.mem_cons_self x [], hc⟩
    | cons y t2 =>
      simp only [intercalateChar] at hc
      rcases List.mem_append.mp hc with h | h
      · right; exact ⟨x, List.mem_cons_self x _, h⟩
      · rcases List.mem_cons.mp h with h2 | h2
        · left; exact h2
        · rcases ih c h2 with h3 | ⟨l, hl, hcl⟩
          · left; exact h3
          · right; exact ⟨l, List.mem_cons_of_mem x hl, hcl⟩

theorem intercalateChar_two_ne_nil (sep : Char) (x y : List Char) (t : List (List Char)) :
    intercalateChar sep (x :: y :: t) ≠ [] := by
  simp only [intercalateChar]
  intro h
  have := List.append_eq_nil.mp h
  exact List.noConfusion this.2

/-- `digitsVal` over an appended list. -/
theorem digitsVal_append (a b : List Char) : ∀ acc,
    digitsVal (a ++ b) acc =
      match digitsVal a acc with
      | some v => digitsVal b v
      | none => none := by
  induction a with
  | nil => intro acc; simp [digitsVal]
  | cons c rest ih =>
    intro acc
    simp only [List.cons_append, digitsVal]
    by_cases hd : c.isDigit
    · rw [if_pos hd, if_pos hd]
      exact ih (acc * 10 + (c.toNat - 48))
    · rw [if_neg hd, if_neg hd]

theorem digitsVal_natChars (n : Nat) : ∀ acc,
    digitsVal (natChars n) acc = some (acc * 10 ^ (natChars n).length + n) := by
  induction n using Nat.strong_induction_on with
  | _ n ih =>
    intro acc
    rw [natChars]
    by_cases h10 : n < 10
    · rw [dif_pos h10]
      simp only [digitsVal, digitChar_isDigit (by omega : n ≤ 9), if_true,
        digitChar_toNat (by omega : n ≤ 9), List.length_singleton]
      congr 1
      rw [pow_one]
      omega
    · rw [dif_neg h10]
      rw [digitsVal_append]
      rw [ih (n / 10) (Nat.div_lt_self (by omega) (by omega)) acc]
      simp only [digitsVal, digitChar_isDigit (by omega : n % 10 ≤ 9), if_true,
        digitChar_toNat (by omega : n % 10 ≤ 9), List.length_append,
        List.length_singleton]
      congr 1
      rw [pow_succ]
      have : 48 + n % 10 - 48 = n % 10 := by omega
      rw [this]
      have hdm := Nat.div_add_mod n 10
      ring_nf
      omega

theorem parseRows_encoded : ∀ (rows : List (List (Option Chessr.Piece))) (i : Nat)
    (st : PlaceSt), (∀ r ∈ rows, r.length = 8) →
    parseRows (rows.map encodeRank) i st = .ok (writeRows st i rows) := by
  intro rows
  induction rows with
  | nil => intro i st _; rfl
  | cons r rs ih =>
    intro i st hall
    have hr8 : r.length = 8 := hall r (List.mem_cons_self r rs)
    simp only [List.map_cons]
    rw [parseRows]
    have hA : parseRowChars i (encodeRank r) st 0 false 0 =
        .ok (writeSeq st (i * 8 + (0 + 0)) r, 0 + 0 + r.length) :=
      parseRowChars_encodeRankAux i r 0 0 0 st (by omega)
    rw [hA]
    simp only [hr8]
    rw [if_neg (by omega : ¬(0 + 0 + 8 ≠ 8))]
    rw [ih (i + 1) _ (fun x hx => hall x (List.mem_cons_of_mem r hx))]
    simp only [writeRows]
    have e : i * 8 + (0 + 0) = i * 8 := by omega
    rw [e]

theorem writeRows_eq_writeSeq : ∀ (rows : List (List (Option Chessr.Piece)))
    (i : Nat) (st : PlaceSt), (∀ r ∈ rows, r.length = 8) →
    writeRows st i rows = writeSeq st (i * 8) rows.flatten := by
  intro rows
  induction rows with
  | nil => intro i st _; rfl
  | cons r rs ih =>
    intro i st hall
    simp only [writeRows, List.flatten_cons]
    rw [writeSeq_append]
    rw [ih (i + 1) _ (fun x hx => hall x (List.mem_cons_of_mem r hx))]
    have e : i * 8 + r.length = (i + 1) * 8 := by
      rw [hall r (List.mem_cons_self r rs)]
      ring
    rw [e]

theorem parseU32_natChars {n : Nat} (h : n < 2 ^ 32) :
    parseU32 (natChars n) = some n := by
  unfold parseU32
  rw [if_neg (by simp [List.isEmpty_iff, natChars_ne_nil n])]
  rw [digitsVal_natChars n 0]
  have h2 : n < 4294967296 := by norm_num at h; exact h
  simp [h2]

theorem castle_round (k : Nat) (hk : k < 16) :
    (if castleFieldBB k = ['-'] then Except.ok 0 else parseCastle (castleFieldBB k) 0) =
      (.ok k : Except FenParseError Nat) := by
  interval_cases k <;> rfl

theorem ep_round (active : Color) (ep : Option Nat)
    (hep : (match ep with
            | none => true
            | some n =>
              match active with
              | .black => 16 ≤ n && n ≤ 23
              | .white => 40 ≤ n && n ≤ 47) = true) :
    (if epFieldBB ep = ['-'] then Except.ok none
     else parseEpChars (epFieldBB ep) active (epFieldBB ep) 0 0) =
      (.ok ep : Except FenParseError (Option Nat)) := by
  cases ep with
  | none => cases active <;> rfl
  | some n =>
    cases active with
    | black =>
      simp only [Bool.and_eq_true, decide_eq_true_eq] at hep
      obtain ⟨h1, h2⟩ := hep
      interval_cases n <;> rfl
    | white =>
      simp only [Bool.and_eq_true, decide_eq_true_eq] at hep
      obtain ⟨h1, h2⟩ := hep
      interval_cases n <;> rfl

theorem fenPlacementChars_not_ws : ∀ c ∈ fenPlacementChars, c.isWhitespace = false := by
  decide

theorem fenPlacementChars_not_slash : ∀ c ∈ fenPlacementChars, c ≠ '/' := by
  decide

theorem digits_not_ws : ∀ c ∈ "0123456789".data, c.isWhitespace = false := by
  decide

theorem castleField_ne_nil (k : Nat) (hk : k < 16) : castleFieldBB k ≠ [] := by
  interval_cases k <;> decide

theorem castleField_not_ws (k : Nat) (hk : k < 16) :
    ∀ c ∈ castleFieldBB k, c.isWhitespace = false := by
  interval_cases k <;> decide

theorem epField_ne_nil (ep : Option Nat) : epFieldBB ep ≠ [] := by
  cases ep with
  | none => decide
  | some n => simp [epFieldBB]

theorem epField_not_ws (active : Color) (ep : Option Nat)
    (hep : (match ep with
            | none => true
            | some n =>
              match active with
              | .black => 16 ≤ n && n ≤ 23
              | .white => 40 ≤ n && n ≤ 47) = true) :
    ∀ c ∈ epFieldBB ep, c.isWhitespace = false := by
  cases ep with
  | none => decide
  | some n =>
    cases active with
    | black =>
      simp only [Bool.and_eq_true, decide_eq_true_eq] at hep
      obtain ⟨h1, h2⟩ := hep
      interval_cases n <;> decide
    | white =>
      simp only [Bool.and_eq_true, decide_eq_true_eq] at hep
      obtain ⟨h1, h2⟩ := hep
      interval_cases n <;> decide

theorem color_round (c : Color) :
    (if [Color.toFenChar c] = ['w'] then Except.ok Color.white
     else if [Color.toFenChar c] = ['b'] then Except.ok Color.black
     else Except.error (FenParseError.ActiveColor [Color.toFenChar c])) = .ok c := by
  cases c <;> rfl

theorem intercalateChar_ne_nil_of_two (sep : Char) (ls : List (List Char))
    (h : 2 ≤ ls.length) : intercalateChar sep ls ≠ [] := by
  match ls, h with
  | x :: y :: t, _ => exact intercalateChar_two_ne_nil sep x y t

/-- The conjuncts of `WF`, in usable form. -/
theorem WF_spec (b : Board) (h : WF b = true) :
    b.pieces_order.length = 64 ∧
    b.both_players_pieces = deriveBoth b.pieces_order ∧
    b.players_pieces = derivePlayers b.pieces_order ∧
    RANK_1 &&& b.both_players_pieces.getD 0 0 = 0 ∧
    RANK_8 &&& b.both_players_pieces.getD 0 0 = 0 ∧
    b.both_players_pieces.getD 5 0 &&& b.players_pieces.getD 0 0 ≠ 0 ∧
    b.both_players_pieces.getD 5 0 &&& b.players_pieces.getD 1 0 ≠ 0 ∧
    (match b.en_passant_target with
     | none => true
     | some n =>
       match b.active_color with
       | .black => 16 ≤ n && n ≤ 23
       | .white => 40 ≤ n && n ≤ 47) = true ∧
    b.castle_rights < 16 ∧ b.halfmove_clock < 2 ^ 32 ∧ b.fullmove_number < 2 ^ 32 := by
  simp only [WF, Bool.and_eq_true, beq_iff_eq, decide_eq_true_eq] at h
  tauto

theorem fen_round_trip_chars (b : Board) (h : WF b = true) :
    parseFenChars (bbFenChars b) = .ok b := by
  obtain ⟨hlen, hboth, hplayers, hr1, hr8, hkw, hkb, hep, hc16, hhm, hfm⟩ := WF_spec b h
  obtain ⟨po, players, both, active, castle, ep, hm, fm⟩ := b
  simp only at hlen hboth hplayers hr1 hr8 hkw hkb hep hc16 hhm hfm
  set chunks := (List.range 8).map (fun i => (po.drop (8 * i)).take 8) with hchunks
  have hchunklen : ∀ r ∈ chunks, r.length = 8 := by
    intro r hr
    rw [hchunks] at hr
    simp only [List.mem_map, List.mem_range] at hr
    obtain ⟨i, hi, rfl⟩ := hr
    simp only [List.length_take, List.length_drop, hlen]
    omega
  have hjoin : chunks.flatten = po := chunksJoin 8 po (by omega)
  have hplacechars : ∀ c ∈ intercalateChar '/' (chunks.map encodeRank),
      c = '/' ∨ c ∈ fenPlacementChars := by
    intro c hc
    rcases mem_intercalateChar '/' _ c hc with h1 | ⟨l, hl, hcl⟩
    · left; exact h1
    · right
      simp only [List.mem_map] at hl
      obtain ⟨r, hr, rfl⟩ := hl
      exact encodeRankAux_chars r 0 (by rw [hchunklen r hr]) c hcl
  have hsplit : splitWs (bbFenChars ⟨po, players, both, active, castle, ep, hm, fm⟩) =
      [intercalateChar '/' (chunks.map encodeRank), [active.toFenChar],
       castleFieldBB castle, epFieldBB ep, natChars hm, natChars fm] := by
    apply splitWs_intercalate
    · simp
    · intro w hw
      simp only [List.mem_cons, List.not_mem_nil, or_false] at hw
      rcases hw with rfl | rfl | rfl | rfl | rfl | rfl
      · constructor
        · apply intercalateChar_ne_nil_of_two
          simp
        · intro c hc
          rcases hplacechars c hc with rfl | hmem
          · decide
          · exact fenPlacementChars_not_ws c hmem
      · exact ⟨by simp, by cases active <;> decide⟩
      · exact ⟨castleField_ne_nil castle hc16, castleField_not_ws castle hc16⟩
      · exact ⟨epField_ne_nil ep, epField_not_ws active ep hep⟩
      · exact ⟨natChars_ne_nil hm, fun c hc => digits_not_ws c (natChars_chars hm c hc)⟩
      · exact ⟨natChars_ne_nil fm, fun c hc => digits_not_ws c (natChars_chars fm c hc)⟩
  have hss : splitSlash (intercalateChar '/' (chunks.map encodeRank)) =
      chunks.map encodeRank := by
    apply splitSlash_intercalate
    · simp [hchunks]
    · intro w hw c hc
      simp only [List.mem_map] at hw
      obtain ⟨r, hr, rfl⟩ := hw
      exact fenPlacementChars_not_slash c
        (encodeRankAux_chars r 0 (by rw [hchunklen r hr]) c hc)
  have hpr : parseRows (chunks.map encodeRank) 0
      ⟨List.replicate 64 none, List.replicate 6 0, List.replicate 2 0⟩ =
      .ok ⟨po, deriveBoth po, derivePlayers po⟩ := by
    rw [parseRows_encoded chunks 0 _ hchunklen]
    rw [writeRows_eq_writeSeq chunks 0 _ hchunklen]
    simp only [Nat.zero_mul]
    rw [hjoin]
    have hws := writeSeq_spec po [] 64 (List.replicate 6 0) (List.replicate 2 0)
      (by omega)
    simp only [List.nil_append, List.length_nil] at hws
    rw [hws]
    rw [hlen]
    simp [deriveBoth, derivePlayers]
  unfold parseFenChars
  rw [hsplit]
  dsimp only
  rw [if_neg (by simp)]
  simp only [List.getD_cons_zero, List.getD_cons_succ, List.get?_cons_zero,
    List.get?_cons_succ, Option.getD_some]
  rw [hss, if_neg (by simp [hchunks])]
  rw [hpr]
  dsimp only
  rw [← hboth, ← hplayers]
  rw [if_neg (by rw [hr1]; simp)]
  rw [if_neg (by rw [hr8]; simp)]
  rw [if_neg hkw, if_neg hkb]
  rw [color_round active]
  dsimp only
  rw [castle_round castle hc16]
  dsimp only
  rw [ep_round active ep hep]
  dsimp only
  rw [parseU32_natChars hhm]
  dsimp only
  rw [parseU32_natChars hfm]



theorem getD_set_self {l : List Nat} {i : Nat} (h : i < l.length) (v d : Nat) :
    (l.set i v).getD i d = v := by
  show ((l.set i v).get? i).getD d = v
  rw [List.get?_set_eq_of_lt v h]
  rfl

theorem getD_set_ne {l : List Nat} {i j : Nat} (h : i ≠ j) (v d : Nat) :
    (l.set i v).getD j d = l.getD j d := by
  show ((l.set i v).get? j).getD d = (l.get? j).getD d
  rw [List.get?_set_ne v l h]

theorem kindIndex_lt (p : Chessr.Piece) : kindIndex p < 6 := by
  rcases p with ⟨c⟩ | ⟨c⟩ | ⟨c⟩ | ⟨c⟩ | ⟨c⟩ | ⟨c⟩ <;> simp [kindIndex]

theorem placeInv_place {st : PlaceSt} (h : placeInv st) (sq : Nat) (q : Chessr.Piece) :
    placeInv (placePiece st sq q) := by
  obtain ⟨hlen, hinv⟩ := h
  constructor
  · simp [placePiece, hlen]
  · intro k p hk
    simp only [placePiece] at hk ⊢
    by_cases hks : k = sq
    · subst hks
      by_cases hklen : k < st.pieces_order.length
      · rw [List.get?_set_eq_of_lt _ hklen] at hk
        injection hk with hk2
        injection hk2 with hk3
        subst hk3
        rw [getD_set_self (by rw [hlen]; exact kindIndex_lt q) _ _]
        rw [Nat.testBit_or]
        have h2 : Nat.testBit (1 <<< k) k = true := by
          rw [Nat.shiftLeft_eq, one_mul]
          exact Nat.testBit_two_pow_self
        rw [h2]
        simp
      · have hnone : (st.pieces_order.set k (some q)).get? k = none := by
          rw [List.get?_eq_none]
          simp only [List.length_set]
          omega
        rw [hnone] at hk
        cases hk
    · rw [List.get?_set_ne _ _ (fun hh => hks hh.symm)] at hk
      have hb := hinv k p hk
      by_cases hkind : kindIndex p = kindIndex q
      · rw [hkind] at hb ⊢
        rw [getD_set_self (by rw [hlen]; exact kindIndex_lt q) _ _]
        rw [Nat.testBit_or, hb]
        simp
      · rw [getD_set_ne (fun hh => hkind hh.symm) _ _]
        exact hb



theorem placeInv_init :
    placeInv ⟨List.replicate 64 none, List.replicate 6 0, List.replicate 2 0⟩ := by
  constructor
  · simp
  · intro k p hk
    rcases List.get?_eq_some.mp hk with ⟨hlt, hval⟩
    simp only [List.get_eq_getElem, List.getElem_replicate] at hval
    cases hval

theorem placeInv_parseRowChars (i : Nat) :
    ∀ (cs : List Char) (st : PlaceSt) (col : Nat) (ld : Bool) (rs : Nat)
      (st2 : PlaceSt) (rs2 : Nat),
      parseRowChars i cs st col ld rs = .ok (st2, rs2) → placeInv st → placeInv st2 := by
  intro cs
  induction cs with
  | nil =>
    intro st col ld rs st2 rs2 hp hinv
    rw [parseRowChars] at hp
    injection hp with hp2
    injection hp2 with hp3 _
    rw [← hp3]
    exact hinv
  | cons c rest ih =>
    intro st col ld rs st2 rs2 hp hinv
    rw [parseRowChars] at hp
    by_cases hd : c.isDigit
    · rw [if_pos hd] at hp
      cases ld with
      | true => simp at hp
      | false =>
        simp only [Bool.false_eq_true, if_false] at hp
        exact ih st _ true _ st2 rs2 hp hinv
    · rw [if_neg hd] at hp
      cases hfc : Chessr.Piece.fromFenChar c with
      | some piece =>
        rw [hfc] at hp
        exact ih _ _ false _ st2 rs2 hp (placeInv_place hinv _ piece)
      | none =>
        rw [hfc] at hp
        exact ih st _ false _ st2 rs2 hp hinv

theorem placeInv_parseRows :
    ∀ (rows : List (List Char)) (i : Nat) (st st2 : PlaceSt),
      parseRows rows i st = .ok st2 → placeInv st → placeInv st2 := by
  intro rows
  induction rows with
  | nil =>
    intro i st st2 hp hinv
    rw [parseRows] at hp
    injection hp with hp2
    rw [← hp2]
    exact hinv
  | cons r rs ih =>
    intro i st st2 hp hinv
    rw [parseRows] at hp
    cases hrc : parseRowChars i r st 0 false 0 with
    | error e => rw [hrc] at hp; cases hp
    | ok pr =>
      rw [hrc] at hp
      dsimp only at hp
      by_cases hsum : pr.2 ≠ 8
      · rw [if_pos hsum] at hp; cases hp
      · rw [if_neg hsum] at hp
        exact ih (i + 1) pr.1 st2 hp
          (placeInv_parseRowChars i r st 0 false 0 pr.1 pr.2 (by rw [hrc]) hinv)

theorem rank1_hit {x k : Nat} (hk : k < 8) (hbit : x.testBit k = true) :
    RANK_1 &&& x ≠ 0 := by
  intro h0
  have : (RANK_1 &&& x).testBit k = true := by
    rw [Nat.testBit_and, hbit]
    have : RANK_1.testBit k = true := by interval_cases k <;> decide
    rw [this]
    rfl
  rw [h0] at this
  rw [Nat.zero_testBit] at this
  cases this

theorem rank8_hit {x k : Nat} (h1 : 56 ≤ k) (h2 : k < 64) (hbit : x.testBit k = true) :
    RANK_8 &&& x ≠ 0 := by
  intro h0
  have : (RANK_8 &&& x).testBit k = true := by
    rw [Nat.testBit_and, hbit]
    have : RANK_8.testBit k = true := by interval_cases k <;> decide
    rw [this]
    rfl
  rw [h0] at this
  rw [Nat.zero_testBit] at this
  cases this



/-- C10: whenever the placement phase of `parse_fen` succeeds (right block
count, 8 rank fields, each summing to 8) and the parsed placement holds a
pawn on the first or the last rank row, `parse_fen` returns a typed
`PawnRank` error and constructs no `Board`. -/
theorem parse_fen_rejects_back_rank_pawn (cs : List Char) (st : PlaceSt)
    (hblocks : ¬((splitWs cs).length < 4 ∨ (splitWs cs).length > 6))
    (hrows : (splitSlash ((splitWs cs).getD 0 [])).length = 8)
    (hparse : parseRows (splitSlash ((splitWs cs).getD 0 [])) 0
        ⟨List.replicate 64 none, List.replicate 6 0, List.replicate 2 0⟩ = .ok st)
    (k : Nat) (c : Color) (hk : k < 8 ∨ (56 ≤ k ∧ k < 64))
    (hpawn : st.pieces_order.get? k = some (some (Chessr.Piece.pawn c))) :
    ∃ r, parseFenChars cs = .error (FenParseError.PawnRank r) := by
  have hinv := placeInv_parseRows _ 0 _ st hparse placeInv_init
  have hbit := hinv.2 k (Chessr.Piece.pawn c) hpawn
  have hkind : kindIndex (Chessr.Piece.pawn c) = 0 := rfl
  rw [hkind] at hbit
  unfold parseFenChars
  rw [if_neg hblocks]
  dsimp only
  rw [if_neg (by rw [hrows]; omega)]
  rw [hparse]
  dsimp only
  by_cases c1 : RANK_1 &&& st.both.getD 0 0 ≠ 0
  · exact ⟨1, by rw [if_pos c1]⟩
  · rcases hk with hk8 | ⟨hk56, hk64⟩
    · exact absurd (rank1_hit hk8 hbit) c1
    · have c2 : RANK_8 &&& st.both.getD 0 0 ≠ 0 := rank8_hit hk56 hk64 hbit
      exact ⟨8, by rw [if_neg c1, if_pos c2]⟩


end BB

/-! ## Claim theorems -/

set_option maxRecDepth 1000000

/-- C1: in the position `4k3/8/8/8/8/8/4r3/4K2R w K - 0 1` the white king on
e1 is in check (the rook on e2 attacks it), f1/g1 are empty and unattacked,
and the castling right is held — and `legal_moves` nevertheless contains the
kingside castling move: `castle_legal_moves` never tests the king's own
square, so castling out of check is generated. -/
theorem castling_generated_while_in_check :
    castleCheckBoard.check = true ∧
    castleCheckBoard.legalMoves.contains wkCastle = true := by
  constructor
  · decide
  · decide

/-- C2: `fifty_move_rule` compares the halfmove clock against 50, so it
already reports a draw at 50 ply (25 full moves), where the claim (and the
FIDE rule the spec quotes) requires 100 ply. -/
theorem fifty_move_rule_fires_at_fifty_ply :
    clock50Board.fiftyMoveRule = true ∧ clock50Board.halfmove_clock = 50 := by
  decide

/-- C3: a move string whose parse fails, or parses to a move outside the
legal-move set, leaves the position unchanged under `make_uci_move`,
`make_san_move` and `make_move` — the board is returned untouched, every
field included. -/
theorem rejected_move_leaves_position_unchanged :
    ∀ (b : Board) (s : String),
      (((Move.fromUci s b).all fun m => !(b.legalMoves.contains m)) = true →
        (b.makeUciMove s).2 = b) ∧
      (((Move.fromSan s b).all fun m => !(b.legalMoves.contains m)) = true →
        (b.makeSanMove s).2 = b) ∧
      (((Move.fromUci s b).all fun m => !(b.legalMoves.contains m)) = true →
        ((Move.fromSan s b).all fun m => !(b.legalMoves.contains m)) = true →
        (b.makeMove s).2 = b) := by
  intro b s
  refine ⟨?_, ?_, ?_⟩
  · intro h
    unfold Board.makeUciMove
    cases hu : Move.fromUci s b with
    | none => rfl
    | some m =>
      rw [hu] at h
      have hb : (!(b.legalMoves.contains m)) = true := h
      have hc : b.legalMoves.contains m = false := by
        cases hcm : b.legalMoves.contains m
        · rfl
        · rw [hcm] at hb
          exact Bool.noConfusion hb
      simp only [hc]
      simp
  · intro h
    unfold Board.makeSanMove
    cases hu : Move.fromSan s b with
    | none => rfl
    | some m =>
      rw [hu] at h
      have hb : (!(b.legalMoves.contains m)) = true := h
      have hc : b.legalMoves.contains m = false := by
        cases hcm : b.legalMoves.contains m
        · rfl
        · rw [hcm] at hb
          exact Bool.noConfusion hb
      simp only [hc]
      simp
  · intro h1 h2
    unfold Board.makeMove
    dsimp only
    cases hu : Move.fromUci s b with
    | none =>
      cases hs : Move.fromSan s b with
      | none => rfl
      | some m =>
        rw [hs] at h2
        have hb : (!(b.legalMoves.contains m)) = true := h2
        have hc : b.legalMoves.contains m = false := by
          cases hcm : b.legalMoves.contains m
          · rfl
          · rw [hcm] at hb
            exact Bool.noConfusion hb
        simp only [hc]
        simp
    | some m =>
      rw [hu] at h1
      have hb1 : (!(b.legalMoves.contains m)) = true := h1
      have hc1 : b.legalMoves.contains m = false := by
        cases hcm : b.legalMoves.contains m
        · rfl
        · rw [hcm] at hb1
          exact Bool.noConfusion hb1
      simp only [hc1]
      cases hs : Move.fromSan s b with
      | none => simp
      | some m2 =>
        rw [hs] at h2
        have hb2 : (!(b.legalMoves.contains m2)) = true := h2
        have hc2 : b.legalMoves.contains m2 = false := by
          cases hcm : b.legalMoves.contains m2
          · rfl
          · rw [hcm] at hb2
            exact Bool.noConfusion hb2
        simp only [hc2]
        simp

/-- C3 witness: "e2e5" parses under UCI but is not legal at the start
position (and does not parse as SAN); the board is unchanged. -/
theorem rejected_move_leaves_position_unchanged_witness :
    (startBoard.makeUciMove "e2e5").2 = startBoard ∧
    (startBoard.makeMove "e2e5").2 = startBoard :=
  ⟨(rejected_move_leaves_position_unchanged startBoard "e2e5").1 (by decide),
   (rejected_move_leaves_position_unchanged startBoard "e2e5").2.2 (by decide) (by decide)⟩

/-- C4: `make_uci_move` and `make_san_move` return the parsed candidate move
even when it is illegal and nothing was applied: "e2e5" at the start
position, and the SAN push "e4" with the double step blocked on e3, are both
returned as `some` although the board is untouched. -/
theorem illegal_candidate_move_still_returned :
    ((Move.fromUci "e2e5" startBoard).all
      fun m => !(startBoard.legalMoves.contains m)) = true ∧
    (startBoard.makeUciMove "e2e5").1.isSome = true ∧
    (startBoard.makeUciMove "e2e5").2 = startBoard ∧
    ((Move.fromSan "e4" knightE3Board).all
      fun m => !(knightE3Board.legalMoves.contains m)) = true ∧
    (knightE3Board.makeSanMove "e4").1.isSome = true ∧
    (knightE3Board.makeSanMove "e4").2 = knightE3Board := by
  refine ⟨by decide, by decide, by decide, by decide, by decide, by decide⟩

/-- C6 counterexample: after e2–e4 from the start position the history entry
appended by `apply_move` is not the FEN of the resulting position — the push
happens before the color flip, so the entry still reads `w`. -/
theorem apply_move_history_entry_cex :
    (startBoard.applyMove moveE2E4).position_history ≠
      startBoard.position_history ++ [boardToFen (startBoard.applyMove moveE2E4)] := by
  decide

/-- C6 amended: `apply_move` appends exactly one entry to
`position_history`, and that entry is the FEN snapshot taken *before* the
active-color flip, the en-passant recomputation and the fullmove update: it
shows the new piece placement, halfmove clock and castle rights, but the
pre-move active color, en-passant target and fullmove number. -/
theorem apply_move_appends_prepush_snapshot (b : Board) (m : Move) :
    (b.applyMove m).position_history =
      b.position_history ++
        [boardToFen
          { b.applyMove m with
              active_color := b.active_color
              en_passant_target := b.en_passant_target
              fullmove_number := b.fullmove_number }] := by
  rw [applyMove_history]
  congr 2
  apply boardToFen_congr
  · rfl
  · show _ = b.active_color
    rw [updateCastleRights_active, applyMoveStage_active, applyCastleStage_active]
  · rfl
  · show _ = b.en_passant_target
    rw [updateCastleRights_ep, applyMoveStage_ep, applyCastleStage_ep]
  · rfl
  · show _ = b.fullmove_number
    rw [updateCastleRights_full, applyMoveStage_full, applyCastleStage_full]

/-- C7: `apply_move` flips the active color exactly once and increments the
fullmove number exactly when the move just completed was Black's (the new
active color is White); a White move leaves it unchanged. -/
theorem fullmove_increments_iff_black_moved (b : Board) (m : Move) :
    (b.applyMove m).active_color = b.active_color.invert ∧
    (b.applyMove m).fullmove_number =
      (if b.active_color = Color.black then b.fullmove_number + 1
       else b.fullmove_number) :=
  ⟨applyMove_active_color b m, applyMove_fullmove b m⟩

/-- C8: castling-rights revocation is monotonic — after any sequence of
`apply_move`s every remaining right was already held at the start, so a
cleared right is never restored. -/
theorem castle_rights_revocation_monotone (b : Board) (ms : List Move) :
    ((ms.foldl Board.applyMove b).castle_rights).all
      (fun x => b.castle_rights.contains x) = true := by
  rw [List.all_eq_true]
  intro x hx
  exact List.elem_eq_true_of_mem (castle_rights_mono_aux ms b x hx)

/-- C9: the historical `make_move` (`src/board.rs:83-142`) does not return
normally on the rook move a1–a2 with the halfmove clock at 49: the clock
reaches 50 and the function prints "Draw by 50-move rule" and calls
`process::exit(0)` (the `true` flag of the embedding). -/
theorem old_make_move_exits_at_fifty :
    old49Board.halfmove_clock = 49 ∧
    (old49Board.makeMove oldRookMove).2 = true := by
  decide

/-- C5: parsing inverts serialization: for every well-formed bitboard board
(the shape `parse_fen` itself guarantees and every position reachable by
legal play satisfies), parsing the canonical FEN serialization returns
exactly that board, field for field.  Both round-trip directions of the
claim follow: a canonical FEN string is the serialization of such a board,
and serializing the parse result reproduces the string. -/
theorem fen_parse_serialize_round_trip (b : BB.Board) (h : BB.WF b = true) :
    BB.parseFen (BB.bbToFen b) = .ok b :=
  BB.fen_round_trip_chars b h

/-- C5 witness: the starting position round-trips. -/
theorem fen_parse_serialize_round_trip_witness :
    BB.WF bbStartBoard = true ∧
    BB.parseFen (BB.bbToFen bbStartBoard) = .ok bbStartBoard :=
  ⟨by decide, fen_parse_serialize_round_trip bbStartBoard (by decide)⟩

/-- C10 witness: a FEN with a white pawn on a1 is rejected with a
`PawnRank` error. -/
theorem parse_fen_rejects_back_rank_pawn_witness :
    ∃ r, BB.parseFenChars pawnRankFen = .error (BB.FenParseError.PawnRank r) := by
  have hsplit : BB.splitWs pawnRankFen =
      [pawnRankBlock, ['w'], ['-'], ['-'], ['0'], ['1']] := by
    have he : pawnRankFen =
        intercalateChar ' ' [pawnRankBlock, ['w'], ['-'], ['-'], ['0'], ['1']] := by
      decide
    rw [he]
    exact BB.splitWs_intercalate _ (by decide) (by decide)
  exact BB.parse_fen_rejects_back_rank_pawn pawnRankFen pawnRankSt
    (by rw [hsplit]; decide) (by rw [hsplit]; decide)
    (by rw [hsplit]; rfl) 56 Color.white (by decide) (by decide)

end Chessr
